import Mathlib

/-
Verification of the kustomize-visualizer core against its specification.

The Go sources are shallow-embedded: pure functions become Lean functions,
the recursive overlay parser becomes a fuel-indexed state-passing function,
and calls into the standard library or the network (URL parsing, YAML
unmarshalling, TLS dials, the filesystem) become explicit oracle parameters
bundled in environment structures.  Strings are modelled with Lean String;
Go byte indexing is modelled at the character level (all inputs of interest
are ASCII).  Paths follow POSIX rules, matching the Go path and
path/filepath packages on Unix.
-/

namespace KV

/-! ## String utilities mirroring the Go strings package -/

/-- Go strings.HasPrefix, computed on the character lists so that the
kernel can evaluate it. -/
def strStartsWith (s pre : String) : Bool :=
  pre.data.isPrefixOf s.data

/-- Go strings.HasSuffix, computed on the character lists. -/
def strEndsWith (s suf : String) : Bool :=
  suf.data.isSuffixOf s.data

/-- ASCII lower-casing of one character (Go strings.ToLower restricted to
the ASCII range, which covers every string the code compares). -/
def asciiLower (c : Char) : Char :=
  if 'A' ≤ c ∧ c ≤ 'Z' then Char.ofNat (c.toNat + 32) else c

/-- Go strings.ToLower (ASCII). -/
def strToLower (s : String) : String :=
  ⟨s.data.map asciiLower⟩

/-- Go strings.Contains for a single-character substring. -/
def strContainsChar (s : String) (c : Char) : Bool :=
  s.data.contains c

/-- Go strings.Trim(s, cutset) for a single-character cutset:
removes leading and trailing occurrences of the character. -/
def trimChar (c : Char) (s : String) : String :=
  let l := s.data.dropWhile (fun a => a = c)
  ⟨(l.reverse.dropWhile (fun a => a = c)).reverse⟩

/-- Go strings.TrimSpace (ASCII whitespace approximation). -/
def trimSpace (s : String) : String :=
  let l := s.data.dropWhile Char.isWhitespace
  ⟨(l.reverse.dropWhile Char.isWhitespace).reverse⟩

/-- Go strings.TrimPrefix: drops the leading occurrence of pre when present. -/
def trimLeading (pre s : String) : String :=
  if strStartsWith s pre then ⟨s.data.drop pre.data.length⟩ else s

/-- Helper for splitOnChar: accumulates the current field in reverse. -/
def splitOnCharAux (c : Char) : List Char → List Char → List (List Char)
  | [], acc => [acc.reverse]
  | a :: as, acc =>
    if a = c then acc.reverse :: splitOnCharAux c as []
    else splitOnCharAux c as (a :: acc)

/-- Go strings.Split for a single-character separator. -/
def splitOnChar (c : Char) (s : String) : List String :=
  (splitOnCharAux c s.data []).map (fun l => ⟨l⟩)

/-- Go strings.Join with separator "/" (the only separator the code uses). -/
def joinSlash : List String → String
  | [] => ""
  | [a] => a
  | a :: rest => a ++ "/" ++ joinSlash rest

/-- Character-level take, modelling the Go slice label[:n]. -/
def strTake (s : String) (n : Nat) : String := ⟨s.data.take n⟩

/-! ## The Go path package (POSIX semantics) -/

/-- One step of the component pass of Go path.Clean: "" and "." are dropped,
".." pops the last kept component unless there is nothing to pop. -/
def cleanStep (rooted : Bool) (out : List String) (c : String) : List String :=
  if c = "" ∨ c = "." then out
  else if c = ".." then
    match out with
    | [] => if rooted then [] else [".."]
    | o :: os => if o = ".." then ".." :: o :: os else os
  else c :: out

/-- Go path.Clean for slash-separated paths. -/
def pathClean (p : String) : String :=
  if p = "" then "."
  else
    let rooted := strStartsWith p "/"
    let comps := splitOnChar '/' p
    let out := (comps.foldl (cleanStep rooted) []).reverse
    let joined := joinSlash out
    if rooted then
      (if joined = "" then "/" else "/" ++ joined)
    else
      (if joined = "" then "." else joined)

/-- Go path.Join for two elements: leading empty elements are dropped and
the slash-joined remainder is cleaned; all-empty input yields "". -/
def pathJoin (a b : String) : String :=
  if a = "" then
    (if b = "" then "" else pathClean b)
  else pathClean (a ++ "/" ++ b)

/-- Go filepath.Join on Unix agrees with path.Join for two elements. -/
def filepathJoin (a b : String) : String := pathJoin a b

example : pathClean "overlay/" = "overlay" := by decide
example : pathClean "a/b/c/../../x" = "a/x" := by decide
example : pathClean "../../x" = "../../x" := by decide
example : pathClean "/../x" = "/x" := by decide
example : pathJoin "." "base" = "base" := by decide
example : pathJoin "overlay" "." = "overlay" := by decide

/-! ## Parser helper functions (src/unnamed/part_011) -/

/-- isYAMLFile checks if a path points to a YAML file. -/
def isYAMLFile (path : String) : Bool :=
  let lower := strToLower path
  strEndsWith lower ".yaml" ∨ strEndsWith lower ".yml"

/-- resolvePath resolves a relative path against a base path
(clean both, then join). -/
def resolvePath (basePath relativePath : String) : String :=
  pathJoin (pathClean basePath) (pathClean relativePath)

example : resolvePath "overlay" "base" = "overlay/base" := by decide
example : resolvePath "overlay/" "base" = "overlay/base" := by decide
example : resolvePath "overlay/dev" "../base" = "overlay/base" := by decide
example : resolvePath "a/b/c" "../../x" = "a/x" := by decide
example : resolvePath "" "base" = "base" := by decide
example : resolvePath "overlay" "." = "overlay" := by decide

/-- Max label length when the label spans multiple path segments. -/
def maxLabelLenMulti : Nat := 35

/-- Max label length for a single segment (filename). -/
def maxLabelLenSingle : Nat := 50

/-- The nonempty segments of the slash-trimmed path. -/
def labelSegs (fullPath : String) : List String :=
  (splitOnChar '/' (trimChar '/' fullPath)).filter (fun p => p ≠ "")

/-- The loop of getShortLabel: extend the label with as many trailing
segments as fit in maxLabelLenMulti, stopping at the first overflow.
The first argument counts the remaining loop iterations (structural
recursion standing in for the Go for-loop from n to len(segs)). -/
def growLabelAux (segs : List String) : Nat → Nat → String → String
  | 0, _, label => label
  | k + 1, n, label =>
    if n ≤ segs.length then
      let candidate := joinSlash (segs.drop (segs.length - n))
      if candidate.length ≤ maxLabelLenMulti then
        growLabelAux segs k (n + 1) candidate
      else label
    else label

/-- The loop of getShortLabel starting at segment count n. -/
def growLabel (segs : List String) (n : Nat) (label : String) : String :=
  growLabelAux segs (segs.length + 1 - n) n label

/-- The label chosen by getShortLabel before final truncation. -/
def shortLabelRaw (fullPath : String) : String :=
  match (labelSegs fullPath).getLast? with
  | none => "unknown"
  | some lastSeg => growLabel (labelSegs fullPath) 2 lastSeg

/-- getShortLabel creates a short, readable label from a path. -/
def getShortLabel (fullPath : String) : String :=
  match (labelSegs fullPath).getLast? with
  | none => "unknown"
  | some lastSeg =>
    let label := growLabel (labelSegs fullPath) 2 lastSeg
    let maxLen := if strContainsChar label '/' then maxLabelLenMulti else maxLabelLenSingle
    if label.length > maxLen then strTake label (maxLen - 3) ++ "..." else label

example : getShortLabel "" = "unknown" := by decide
example : getShortLabel "base" = "base" := by decide
example : getShortLabel "overlay/base" = "overlay/base" := by decide
example : getShortLabel "/overlay/base/" = "overlay/base" := by decide
example : getShortLabel "openstackcontrolplane.yaml" = "openstackcontrolplane.yaml" := by decide
example : getShortLabel "a/b/c/d/e" = "a/b/c/d/e" := by decide
example :
    getShortLabel "this_is_a_very_long_filename_that_exceeds_multi_limit.yaml"
      = "this_is_a_very_long_filename_that_exceeds_multi..." := by decide

/-! ## Data model (src/internal/repository, src/internal/types) -/

/-- repository.RepositoryType. -/
inductive RepositoryType where
  | github
  | gitlab
  | localRepo
  | unknown
deriving DecidableEq, Repr

/-- The string value of a RepositoryType constant (used by buildNodeID). -/
def RepositoryType.str : RepositoryType → String
  | .github => "github"
  | .gitlab => "gitlab"
  | .localRepo => "local"
  | .unknown => "unknown"

/-- repository.RepositoryInfo. -/
structure RepositoryInfo where
  type : RepositoryType
  owner : String := ""
  repo : String := ""
  ref : String := ""
  baseURL : String := ""
  path : String := ""
  rootPath : String := ""
deriving DecidableEq, Repr

/-- parser.Kustomization, the parsed kustomization.yaml structure.
Patch entries are arbitrary YAML values in Go; only their presence is
modelled, as the parser never inspects them. -/
structure Kustomization where
  resources : List String := []
  components : List String := []
  patches : List String := []
  bases : List String := []
deriving DecidableEq, Repr

/-- The content map stored on a node: either the kustomization fields
(addNode) or an error message (addErrorNode). -/
inductive NodeContent where
  | kust (k : Kustomization)
  | errMsg (msg : String)
deriving DecidableEq, Repr

/-- types.ElementData; unused fields keep their Go zero value. -/
structure ElementData where
  id : String
  label : String := ""
  type : String := ""
  path : String := ""
  content : Option NodeContent := none
  source : String := ""
  target : String := ""
  edgeType : String := ""
deriving DecidableEq, Repr

/-- types.Element: group is "nodes" or "edges". -/
structure Element where
  group : String
  data : ElementData
deriving DecidableEq, Repr

/-- Assignment m[k] = v on a Go map modelled as an association list. -/
def mapSet (m : List (String × String)) (k v : String) : List (String × String) :=
  match m with
  | [] => [(k, v)]
  | (k0, v0) :: rest => if k0 = k then (k, v) :: rest else (k0, v0) :: mapSet rest k v

/-- types.Graph (the fields the parser and CA collector touch). -/
structure Graph where
  elements : List Element := []
  baseURLs : List (String × String) := []
  localRootPaths : List (String × String) := []
  caBundle : String := ""
  caBundleExpires : String := ""
deriving DecidableEq, Repr

/-! ## Graph mutators (src/unnamed/part_011) -/

/-- The element-list scan of addNode: the first node element carrying the
new id is replaced when its type is "error" and left alone otherwise;
none means no node with this id exists. -/
def addNodeElems (newData : ElementData) : List Element → Option (List Element)
  | [] => none
  | e :: es =>
    if e.group = "nodes" ∧ e.data.id = newData.id then
      some ((if e.data.type = "error" then { group := e.group, data := newData } else e) :: es)
    else
      (addNodeElems newData es).map (fun es2 => e :: es2)

/-- addNode adds a node to the graph; an existing error node with the same
id is replaced in place, an existing concrete node is left alone, and the
baseURL mapping is recorded whenever baseURL is nonempty. -/
def addNode (g : Graph) (id nodeType nodePath : String) (kust : Option Kustomization)
    (baseURL : String) : Graph :=
  let content : Option NodeContent := kust.map NodeContent.kust
  let newData : ElementData :=
    { id := id, label := getShortLabel nodePath, type := nodeType, path := nodePath,
      content := content }
  match addNodeElems newData g.elements with
  | some es =>
    { g with elements := es,
             baseURLs := if baseURL ≠ "" then mapSet g.baseURLs id baseURL else g.baseURLs }
  | none =>
    { g with elements := g.elements ++ [{ group := "nodes", data := newData }],
             baseURLs := if baseURL ≠ "" then mapSet g.baseURLs id baseURL else g.baseURLs }

/-- Whether some node element with this id exists (the scan of addErrorNode). -/
def hasNodeWithID (es : List Element) (id : String) : Bool :=
  es.any (fun e => e.group = "nodes" ∧ e.data.id = id)

/-- addErrorNode adds an error node unless any node with the id exists. -/
def addErrorNode (g : Graph) (id path errorMessage baseURL : String) : Graph :=
  if hasNodeWithID g.elements id then g
  else
    let newData : ElementData :=
      { id := id, label := getShortLabel path, type := "error", path := path,
        content := some (NodeContent.errMsg errorMessage) }
    { g with elements := g.elements ++ [{ group := "nodes", data := newData }],
             baseURLs := if baseURL ≠ "" then mapSet g.baseURLs id baseURL else g.baseURLs }

/-- Whether some edge element with this id exists (the scan of addEdge). -/
def hasEdgeWithID (es : List Element) (id : String) : Bool :=
  es.any (fun e => e.group = "edges" ∧ e.data.id = id)

/-- addEdge adds an edge with id "source->target", deduplicated by id. -/
def addEdge (g : Graph) (sourceID targetID edgeType : String) : Graph :=
  let edgeID := sourceID ++ "->" ++ targetID
  if hasEdgeWithID g.elements edgeID then g
  else
    { g with elements := g.elements ++
        [{ group := "edges",
           data := { id := edgeID, source := sourceID, target := targetID,
                     edgeType := edgeType } }] }

/-- buildNodeID creates the canonical node identifier:
github:owner/repo/path@ref, gitlab:owner/repo/path@ref, local:path@ref. -/
def buildNodeID (repoInfo : RepositoryInfo) (nodePath : String) : String :=
  if repoInfo.type = RepositoryType.localRepo then
    "local:" ++ nodePath ++ "@" ++ repoInfo.ref
  else
    repoInfo.type.str ++ ":" ++ repoInfo.owner ++ "/" ++ repoInfo.repo ++ "/" ++ nodePath
      ++ "@" ++ repoInfo.ref

/-! ## The recursive parser (src/unnamed/part_011)

The fetcher capability is reduced to the one operation the parser uses,
FindKustomizationInPath.  Stdlib and filesystem collaborators
(ParseReference with its URL parsing, yaml.Unmarshal, ValidateLocalPath,
DetectLocalRepository, fetcher construction) are oracle parameters.
All functions take a fuel argument that bounds the recursion depth; the
Go code needs none because its visited set is finite, and every theorem
below either holds for all fuel values or evaluates a concrete run with
ample fuel. -/

/-- A fetcher, reduced to FindKustomizationInPath. -/
def Fetcher : Type := String → Except String String

/-- parser.ReferenceType. -/
inductive ReferenceType where
  | remote
  | relative
deriving DecidableEq, Repr

/-- parser.KustomizeReference.  repoInfo is meaningful only for remote
references (nil in Go for relative ones, and never read there). -/
structure KustomizeReference where
  type : ReferenceType
  original : String := ""
  repoInfo : RepositoryInfo := { type := RepositoryType.unknown }
  path : String := ""
  relativePath : String := ""

/-- The oracle bundle for the collaborators of the parser. -/
structure ParserEnv where
  parseReference : String → String → Except String KustomizeReference
  yamlUnmarshal : String → Except String Kustomization
  validateLocalPathO : String → Except String String
  detectLocalRepository : String → Except String RepositoryInfo
  newLocalFetcher : RepositoryInfo → Except String Fetcher
  fetcherFactory : RepositoryInfo → String → Except String Fetcher

/-- parser.Parser: the per-parse state.  The entry repoInfo pointer is
taken to be non-nil (NewParser is always called with a detected repo). -/
structure ParserState where
  fetcher : Fetcher
  repoInfo : RepositoryInfo
  tokens : RepositoryType → String
  graph : Graph
  visitedURLs : List String

/-- sameRepoAsEntry: local repos compare by RootPath, remotes by
owner and repo. -/
def sameRepoAsEntry (entry current : RepositoryInfo) : Bool :=
  if entry.type = RepositoryType.localRepo ∧ current.type = RepositoryType.localRepo then
    entry.rootPath ≠ "" ∧ entry.rootPath = current.rootPath
  else
    entry.owner = current.owner ∧ entry.repo = current.repo

/-- State-level wrapper of addNode. -/
def addNodeSt (st : ParserState) (id nodeType nodePath : String)
    (kust : Option Kustomization) (baseURL : String) : ParserState :=
  { st with graph := addNode st.graph id nodeType nodePath kust baseURL }

/-- State-level wrapper of addErrorNode. -/
def addErrorNodeSt (st : ParserState) (id path errorMessage baseURL : String) : ParserState :=
  { st with graph := addErrorNode st.graph id path errorMessage baseURL }

/-- State-level wrapper of addEdge. -/
def addEdgeSt (st : ParserState) (sourceID targetID edgeType : String) : ParserState :=
  { st with graph := addEdge st.graph sourceID targetID edgeType }

/-- The LocalRootPaths[childID] = rootPath assignment in processReference. -/
def setLocalRootSt (st : ParserState) (childID rootPath : String) : ParserState :=
  { st with graph := { st.graph with
      localRootPaths := mapSet st.graph.localRootPaths childID rootPath } }

/-- The error branches of processReference all add an error node and then
the edge from the parent, and swallow the error. -/
def errOut (st : ParserState) (parentID childID path msg baseURL refType : String) :
    ParserState × Option String :=
  let st := addErrorNodeSt st childID path msg baseURL
  let st := addEdgeSt st parentID childID refType
  (st, none)

/-- Fetcher selection for a relative reference that stays in the current
repo: reuse the entry fetcher when the current repo is the entry repo,
otherwise build one for the current repo with its token. -/
def fetcherForCurrent (env : ParserEnv) (st : ParserState) (currentRepo : RepositoryInfo) :
    Except String Fetcher :=
  if sameRepoAsEntry st.repoInfo currentRepo then Except.ok st.fetcher
  else env.fetcherFactory currentRepo (st.tokens currentRepo.type)

/-- Outcome of the fetcher-selection switch in processReference: either an
early error return (already materialised as error node plus edge), or a
child fetcher, repo and path to continue with. -/
inductive RefSetup where
  | early (res : ParserState × Option String)
  | go (childFetcher : Fetcher) (childRepo : RepositoryInfo) (childPath : String)
      (st : ParserState)

/-- The fetcher-selection switch of processReference (the switch statement
over the reference type, including the local-escape handling). -/
def refSetup (env : ParserEnv) (st : ParserState) (parentID refType currentPath : String)
    (currentRepo : RepositoryInfo) (kustomizeRef : KustomizeReference) : RefSetup :=
  match kustomizeRef.type with
  | ReferenceType.relative =>
    let childPath := resolvePath currentPath kustomizeRef.relativePath
    if currentRepo.type = RepositoryType.localRepo ∧ currentRepo.rootPath ≠ "" then
      let baseDir := filepathJoin currentRepo.rootPath currentPath
      let absPath := pathClean (filepathJoin baseDir kustomizeRef.relativePath)
      let rootClean := pathClean currentRepo.rootPath
      let escapes := absPath ≠ rootClean ∧ ¬ strStartsWith absPath (rootClean ++ "/")
      if escapes then
        match env.validateLocalPathO absPath with
        | Except.error e =>
          let childID := buildNodeID currentRepo childPath
          RefSetup.early (errOut st parentID childID childPath
            ("Invalid local path: " ++ e) currentRepo.baseURL refType)
        | Except.ok validatedPath =>
          match env.detectLocalRepository validatedPath with
          | Except.error e =>
            let childID := buildNodeID currentRepo childPath
            RefSetup.early (errOut st parentID childID childPath
              ("Failed to detect repository: " ++ e) currentRepo.baseURL refType)
          | Except.ok extRepo =>
            match env.newLocalFetcher extRepo with
            | Except.error e =>
              let childID := buildNodeID extRepo extRepo.path
              RefSetup.early (errOut st parentID childID extRepo.path
                ("Failed to create fetcher: " ++ e) extRepo.baseURL refType)
            | Except.ok lf => RefSetup.go lf extRepo extRepo.path st
      else
        match fetcherForCurrent env st currentRepo with
        | Except.error e =>
          let childID := buildNodeID currentRepo childPath
          RefSetup.early (errOut st parentID childID childPath
            ("Failed to create fetcher: " ++ e) currentRepo.baseURL refType)
        | Except.ok f => RefSetup.go f currentRepo childPath st
    else
      match fetcherForCurrent env st currentRepo with
      | Except.error e =>
        let childID := buildNodeID currentRepo childPath
        RefSetup.early (errOut st parentID childID childPath
          ("Failed to create fetcher: " ++ e) currentRepo.baseURL refType)
      | Except.ok f => RefSetup.go f currentRepo childPath st
  | ReferenceType.remote =>
    let childRepo := kustomizeRef.repoInfo
    let childPath := kustomizeRef.path
    match env.fetcherFactory childRepo (st.tokens childRepo.type) with
    | Except.error e =>
      let childID := buildNodeID childRepo childPath
      RefSetup.early (errOut st parentID childID childPath
        ("Failed to create fetcher: " ++ e) childRepo.baseURL refType)
    | Except.ok f => RefSetup.go f childRepo childPath st

mutual

/-- processKustomization: cycle guard, YAML parse, node creation, then the
resource and component loops. -/
def processKustomization (env : ParserEnv) (fuel : Nat) (nodeID content currentPath : String)
    (currentRepo : RepositoryInfo) (nodeType : String) (st : ParserState) :
    ParserState × Option String :=
  match fuel with
  | 0 => (st, some "out of fuel")
  | fuel + 1 =>
    if st.visitedURLs.contains nodeID then (st, none)
    else
      let st := { st with visitedURLs := nodeID :: st.visitedURLs }
      match env.yamlUnmarshal content with
      | Except.error e => (st, some ("failed to parse kustomization YAML: " ++ e))
      | Except.ok kust =>
        let st := addNodeSt st nodeID nodeType currentPath (some kust) currentRepo.baseURL
        let allResources := kust.resources ++ kust.bases
        let st := processResources env fuel nodeID allResources currentPath currentRepo st
        let st := processComponents env fuel nodeID kust.components currentPath currentRepo st
        (st, none)

/-- The resources loop: failures of individual resources are logged and
swallowed. -/
def processResources (env : ParserEnv) (fuel : Nat) (parentID : String)
    (resources : List String) (currentPath : String) (currentRepo : RepositoryInfo)
    (st : ParserState) : ParserState :=
  match fuel with
  | 0 => st
  | fuel + 1 =>
    match resources with
    | [] => st
    | r :: rs =>
      let st := (processResource env fuel parentID r currentPath currentRepo st).1
      processResources env fuel parentID rs currentPath currentRepo st

/-- The components loop: failures of individual components are logged and
swallowed. -/
def processComponents (env : ParserEnv) (fuel : Nat) (parentID : String)
    (components : List String) (currentPath : String) (currentRepo : RepositoryInfo)
    (st : ParserState) : ParserState :=
  match fuel with
  | 0 => st
  | fuel + 1 =>
    match components with
    | [] => st
    | c :: cs =>
      let st := (processReference env fuel parentID c "component" currentPath currentRepo st).1
      processComponents env fuel parentID cs currentPath currentRepo st

/-- processResource: direct YAML files become resource leaves; anything
else is treated as a kustomization reference of type "resource". -/
def processResource (env : ParserEnv) (fuel : Nat) (parentID resource currentPath : String)
    (currentRepo : RepositoryInfo) (st : ParserState) : ParserState × Option String :=
  match fuel with
  | 0 => (st, some "out of fuel")
  | fuel + 1 =>
    if isYAMLFile resource then
      let resourcePath := pathJoin currentPath resource
      let resourceID := buildNodeID currentRepo resourcePath
      let st := addNodeSt st resourceID "resource" resourcePath none currentRepo.baseURL
      let st := addEdgeSt st parentID resourceID "resource"
      (st, none)
    else
      processReference env fuel parentID resource "resource" currentPath currentRepo st

/-- processReference: handles resource and component references, both
relative and remote, selecting the child fetcher per hop. -/
def processReference (env : ParserEnv) (fuel : Nat) (parentID ref refType currentPath : String)
    (currentRepo : RepositoryInfo) (st : ParserState) : ParserState × Option String :=
  match fuel with
  | 0 => (st, some "out of fuel")
  | fuel + 1 =>
    if isYAMLFile ref then
      let resourcePath := pathJoin currentPath ref
      let childID := buildNodeID currentRepo resourcePath
      let st := addNodeSt st childID "resource" resourcePath none currentRepo.baseURL
      let st := addEdgeSt st parentID childID refType
      (st, none)
    else
      let token := st.tokens currentRepo.type
      match env.parseReference ref token with
      | Except.error e =>
        let childID := "error:" ++ ref
        errOut st parentID childID ref ("Failed to parse reference: " ++ e)
          currentRepo.baseURL refType
      | Except.ok kustomizeRef =>
        match refSetup env st parentID refType currentPath currentRepo kustomizeRef with
        | RefSetup.early res => res
        | RefSetup.go childFetcher childRepo childPath st =>
          let childID := buildNodeID childRepo childPath
          let st :=
            if childRepo.type = RepositoryType.localRepo ∧ childRepo.rootPath ≠ ""
                ∧ ¬ sameRepoAsEntry st.repoInfo childRepo then
              setLocalRootSt st childID childRepo.rootPath
            else st
          match childFetcher childPath with
          | Except.error e =>
            errOut st parentID childID childPath
              ("File not found or inaccessible: " ++ e) childRepo.baseURL refType
          | Except.ok content =>
            let st := addEdgeSt st parentID childID refType
            processKustomization env fuel childID content childPath childRepo refType st

end

/-- Parse: fetch the entry kustomization and process it as the overlay;
returns the built graph, or the fatal entry error. -/
def parserParse (env : ParserEnv) (fuel : Nat) (st : ParserState) (startPath : String) :
    Except String Graph :=
  match st.fetcher startPath with
  | Except.error e => Except.error ("failed to fetch initial kustomization: " ++ e)
  | Except.ok content =>
    let nodeID := buildNodeID st.repoInfo startPath
    match processKustomization env fuel nodeID content startPath st.repoInfo "overlay" st with
    | (_, some e) => Except.error e
    | (st2, none) => Except.ok st2.graph

/-! ## Concrete parse scenarios

The oracles below mirror the behaviour of the real collaborators on the
specific inputs of each scenario: simpleParseReference is the relative
branch of parser.ParseReference, and the YAML oracles return the
kustomization the real yaml.Unmarshal would return on the named contents. -/

/-- The relative branches of ParseReference (used for references without
an http, https or git prefix, which are all the scenarios below use). -/
def simpleParseReference (ref : String) (_token : String) : Except String KustomizeReference :=
  Except.ok { type := ReferenceType.relative, original := ref, relativePath := ref }

/-- An oracle slot for collaborators a scenario never reaches. -/
def unreachedS {α : Type} : String → Except String α := fun _ => Except.error "unreached"

/-- The entry GitHub repo used by the concrete scenarios. -/
def scRepo : RepositoryInfo :=
  { type := RepositoryType.github, owner := "o", repo := "r", ref := "main",
    baseURL := "https://github.com" }

/-- Node ID of path "a" in the scenario repo. -/
def aID : String := "github:o/r/a@main"

/-- Node ID of path "b" in the scenario repo. -/
def bID : String := "github:o/r/b@main"

/-- Fetcher for the scenarios: directories "a" and "b" have kustomization
contents named "ka" and "kb". -/
def scFetch : Fetcher := fun p =>
  if p = "a" then Except.ok "ka"
  else if p = "b" then Except.ok "kb"
  else Except.error "no kustomization file found in path: "

/-- Environment skeleton for the scenarios. -/
def scEnv (yaml : String → Except String Kustomization) : ParserEnv :=
  { parseReference := simpleParseReference,
    yamlUnmarshal := yaml,
    validateLocalPathO := unreachedS,
    detectLocalRepository := unreachedS,
    newLocalFetcher := fun _ => Except.error "unreached",
    fetcherFactory := fun _ _ => Except.error "unreached" }

/-- Fresh parser state over the scenario repo (NewParser). -/
def scState : ParserState :=
  { fetcher := scFetch, repoInfo := scRepo, tokens := fun _ => "",
    graph := {}, visitedURLs := [] }

/-- Scenario for C4: "a" references "../b" and "b" references "../a". -/
def envCycle : ParserEnv := scEnv fun c =>
  if c = "ka" then Except.ok { resources := ["../b"] }
  else if c = "kb" then Except.ok { resources := ["../a"] }
  else Except.error "unreached"

/-- Scenario for C1: "a" references "../b", and the fetched content of
"b" is not valid YAML. -/
def envBadChild : ParserEnv := scEnv fun c =>
  if c = "ka" then Except.ok { resources := ["../b"] }
  else Except.error "did not find expected node content"

/-- Scenario for C3: the kustomization of "a" lists the direct YAML file
"c.yaml" under components. -/
def envYamlComponent : ParserEnv := scEnv fun c =>
  if c = "ka" then Except.ok { components := ["c.yaml"] }
  else Except.error "unreached"

/-! ## Invariant infrastructure for the parser -/

@[simp]
theorem addNodeSt_visited (st : ParserState) (id t p : String) (k : Option Kustomization)
    (b : String) : (addNodeSt st id t p k b).visitedURLs = st.visitedURLs := rfl

@[simp]
theorem addErrorNodeSt_visited (st : ParserState) (id p m b : String) :
    (addErrorNodeSt st id p m b).visitedURLs = st.visitedURLs := rfl

@[simp]
theorem addEdgeSt_visited (st : ParserState) (s t e : String) :
    (addEdgeSt st s t e).visitedURLs = st.visitedURLs := rfl

@[simp]
theorem setLocalRootSt_visited (st : ParserState) (c r : String) :
    (setLocalRootSt st c r).visitedURLs = st.visitedURLs := rfl

@[simp]
theorem errOut_visited (st : ParserState) (a b c d e f : String) :
    (errOut st a b c d e f).1.visitedURLs = st.visitedURLs := rfl

@[simp]
theorem addNodeSt_graph (st : ParserState) (id t p : String) (k : Option Kustomization)
    (b : String) : (addNodeSt st id t p k b).graph = addNode st.graph id t p k b := rfl

@[simp]
theorem addErrorNodeSt_graph (st : ParserState) (id p m b : String) :
    (addErrorNodeSt st id p m b).graph = addErrorNode st.graph id p m b := rfl

@[simp]
theorem addEdgeSt_graph (st : ParserState) (s t e : String) :
    (addEdgeSt st s t e).graph = addEdge st.graph s t e := rfl

@[simp]
theorem setLocalRootSt_elements (st : ParserState) (c r : String) :
    (setLocalRootSt st c r).graph.elements = st.graph.elements := rfl

@[simp]
theorem errOut_graph (st : ParserState) (parentID childID path msg baseURL refType : String) :
    (errOut st parentID childID path msg baseURL refType).1.graph
      = addEdge (addErrorNode st.graph childID path msg baseURL) parentID childID refType := rfl

/-- What a well-formed switch outcome looks like: early outcomes are
errOut applied to the incoming state, go outcomes carry the incoming
state unchanged. -/
def SetupOK (st : ParserState) (parentID refType : String) : RefSetup → Prop
  | RefSetup.early res => ∃ childID path msg baseURL,
      res = errOut st parentID childID path msg baseURL refType
  | RefSetup.go _ _ _ st2 => st2 = st

set_option maxHeartbeats 1600000 in
/-- Case analysis of refSetup. -/
theorem refSetup_spec (env : ParserEnv) (st : ParserState)
    (parentID refType currentPath : String) (currentRepo : RepositoryInfo)
    (kustomizeRef : KustomizeReference) :
    SetupOK st parentID refType
      (refSetup env st parentID refType currentPath currentRepo kustomizeRef) := by
  rcases kustomizeRef with ⟨ty, orig, ri, pth, rel⟩
  cases ty <;> unfold refSetup <;> dsimp only <;> repeat' split
  all_goals first
    | exact ⟨_, _, _, _, rfl⟩
    | rfl

/-- Inversion of refSetup in the early case. -/
theorem refSetup_early (env : ParserEnv) (st : ParserState)
    (parentID refType currentPath : String) (currentRepo : RepositoryInfo)
    (kustomizeRef : KustomizeReference) (res : ParserState × Option String)
    (h : refSetup env st parentID refType currentPath currentRepo kustomizeRef
          = RefSetup.early res) :
    ∃ childID path msg baseURL, res = errOut st parentID childID path msg baseURL refType := by
  have hs := refSetup_spec env st parentID refType currentPath currentRepo kustomizeRef
  rw [h] at hs
  exact hs

/-- Inversion of refSetup in the go case. -/
theorem refSetup_go (env : ParserEnv) (st : ParserState)
    (parentID refType currentPath : String) (currentRepo : RepositoryInfo)
    (kustomizeRef : KustomizeReference) (f : Fetcher) (r : RepositoryInfo) (p : String)
    (st2 : ParserState)
    (h : refSetup env st parentID refType currentPath currentRepo kustomizeRef
          = RefSetup.go f r p st2) :
    st2 = st := by
  have hs := refSetup_spec env st parentID refType currentPath currentRepo kustomizeRef
  rw [h] at hs
  exact hs

/-- The visited set only grows, across all five mutually recursive
functions of the parser. -/
theorem visitedMono : ∀ fuel : Nat,
    (∀ env nodeID content currentPath currentRepo nodeType st,
      st.visitedURLs ⊆
        (processKustomization env fuel nodeID content currentPath currentRepo nodeType st).1.visitedURLs) ∧
    (∀ env parentID rs currentPath currentRepo st,
      st.visitedURLs ⊆
        (processResources env fuel parentID rs currentPath currentRepo st).visitedURLs) ∧
    (∀ env parentID cs currentPath currentRepo st,
      st.visitedURLs ⊆
        (processComponents env fuel parentID cs currentPath currentRepo st).visitedURLs) ∧
    (∀ env parentID r currentPath currentRepo st,
      st.visitedURLs ⊆
        (processResource env fuel parentID r currentPath currentRepo st).1.visitedURLs) ∧
    (∀ env parentID ref refType currentPath currentRepo st,
      st.visitedURLs ⊆
        (processReference env fuel parentID ref refType currentPath currentRepo st).1.visitedURLs) := by
  intro fuel
  induction fuel with
  | zero =>
    refine ⟨?_, ?_, ?_, ?_, ?_⟩ <;> intros <;> simp [processKustomization, processResources,
      processComponents, processResource, processReference, List.Subset.refl]
  | succ n ih =>
    obtain ⟨ihK, ihRs, ihCs, ihR, ihRef⟩ := ih
    refine ⟨?_, ?_, ?_, ?_, ?_⟩
    · intro env nodeID content currentPath currentRepo nodeType st
      simp only [processKustomization]
      split
      · exact List.Subset.refl _
      · split
        · exact fun x hx => List.mem_cons_of_mem _ hx
        · rename_i kust heq
          intro x hx
          exact ihCs env nodeID kust.components currentPath currentRepo _
            (ihRs env nodeID (kust.resources ++ kust.bases) currentPath currentRepo _
              (List.mem_cons_of_mem _ hx))
    · intro env parentID rs currentPath currentRepo st
      simp only [processResources]
      split
      · exact List.Subset.refl _
      · exact List.Subset.trans (ihR _ _ _ _ _ _) (ihRs _ _ _ _ _ _)
    · intro env parentID cs currentPath currentRepo st
      simp only [processComponents]
      split
      · exact List.Subset.refl _
      · exact List.Subset.trans (ihRef _ _ _ _ _ _ _) (ihCs _ _ _ _ _ _)
    · intro env parentID r currentPath currentRepo st
      simp only [processResource]
      split
      · simp
      · exact ihRef _ _ _ _ _ _ _
    · intro env parentID ref refType currentPath currentRepo st
      simp only [processReference]
      split
      · simp
      · split
        · simp
        · rename_i kustomizeRef heq2
          cases hs : refSetup env st parentID refType currentPath currentRepo kustomizeRef with
          | early res =>
            obtain ⟨cid, pth, msg, burl, hres⟩ :=
              refSetup_early env st parentID refType currentPath currentRepo kustomizeRef res hs
            subst hres
            simp
          | go f r p st2 =>
            have hst2 : st2 = st :=
              refSetup_go env st parentID refType currentPath currentRepo kustomizeRef f r p st2 hs
            subst hst2
            dsimp only
            repeat' split
            all_goals first
              | simp
              | exact fun x hx => ihK _ _ _ _ _ _ _ hx

/-- Generic preservation: any property P of the element list preserved by
the three graph mutators (addNode restricted to node types satisfying T)
is preserved by the whole recursive parse.  T must contain "resource"
(used for direct YAML leaves) and "component" (used by the components
loop). -/
theorem elemsPreserved (P : List Element → Prop) (T : String → Prop)
    (hres : T "resource") (hcomp : T "component")
    (hN : ∀ g id t p k b, T t → P g.elements → P ((addNode g id t p k b).elements))
    (hE : ∀ g id p m b, P g.elements → P ((addErrorNode g id p m b).elements))
    (hG : ∀ g s t e, P g.elements → P ((addEdge g s t e).elements)) :
    ∀ fuel : Nat,
    (∀ env nodeID content currentPath currentRepo nodeType st, T nodeType →
      P st.graph.elements →
      P (processKustomization env fuel nodeID content currentPath currentRepo nodeType st).1.graph.elements) ∧
    (∀ env parentID rs currentPath currentRepo st,
      P st.graph.elements →
      P (processResources env fuel parentID rs currentPath currentRepo st).graph.elements) ∧
    (∀ env parentID cs currentPath currentRepo st,
      P st.graph.elements →
      P (processComponents env fuel parentID cs currentPath currentRepo st).graph.elements) ∧
    (∀ env parentID r currentPath currentRepo st,
      P st.graph.elements →
      P (processResource env fuel parentID r currentPath currentRepo st).1.graph.elements) ∧
    (∀ env parentID ref refType currentPath currentRepo st, T refType →
      P st.graph.elements →
      P (processReference env fuel parentID ref refType currentPath currentRepo st).1.graph.elements) := by
  have herr : ∀ st a b c d e f, P st.graph.elements →
      P ((errOut st a b c d e f).1.graph.elements) := by
    intro st a b c d e f h
    exact hG _ _ _ _ (hE _ _ _ _ _ h)
  intro fuel
  induction fuel with
  | zero =>
    refine ⟨?_, ?_, ?_, ?_, ?_⟩ <;> intros <;>
      simp only [processKustomization, processResources, processComponents, processResource,
        processReference] <;> assumption
  | succ n ih =>
    obtain ⟨ihK, ihRs, ihCs, ihR, ihRef⟩ := ih
    refine ⟨?_, ?_, ?_, ?_, ?_⟩
    · intro env nodeID content currentPath currentRepo nodeType st hT hP
      simp only [processKustomization]
      split
      · exact hP
      · split
        · exact hP
        · rename_i kust heq
          exact ihCs env nodeID kust.components currentPath currentRepo _
            (ihRs env nodeID (kust.resources ++ kust.bases) currentPath currentRepo _
              (hN _ _ _ _ _ _ hT hP))
    · intro env parentID rs currentPath currentRepo st hP
      simp only [processResources]
      split
      · exact hP
      · exact ihRs _ _ _ _ _ _ (ihR _ _ _ _ _ _ hP)
    · intro env parentID cs currentPath currentRepo st hP
      simp only [processComponents]
      split
      · exact hP
      · exact ihCs _ _ _ _ _ _ (ihRef _ _ _ _ _ _ _ hcomp hP)
    · intro env parentID r currentPath currentRepo st hP
      simp only [processResource]
      split
      · exact hG _ _ _ _ (hN _ _ _ _ _ _ hres hP)
      · exact ihRef _ _ _ _ _ _ _ hres hP
    · intro env parentID ref refType currentPath currentRepo st hT hP
      simp only [processReference]
      split
      · exact hG _ _ _ _ (hN _ _ _ _ _ _ hres hP)
      · split
        · exact herr _ _ _ _ _ _ _ hP
        · rename_i kustomizeRef heq2
          cases hs : refSetup env st parentID refType currentPath currentRepo kustomizeRef with
          | early res =>
            obtain ⟨cid, pth, msg, burl, hres2⟩ :=
              refSetup_early env st parentID refType currentPath currentRepo kustomizeRef res hs
            subst hres2
            exact herr _ _ _ _ _ _ _ hP
          | go f r p st2 =>
            have hst2 : st2 = st :=
              refSetup_go env st parentID refType currentPath currentRepo kustomizeRef f r p st2 hs
            subst hst2
            dsimp only
            repeat' split
            all_goals first
              | exact herr _ _ _ _ _ _ _ hP
              | exact ihK _ _ _ _ _ _ _ hT (hG _ _ _ _ hP)

/-- The scan of addNode finds nothing exactly when no node element
carries the new id. -/
theorem addNodeElems_eq_none (d : ElementData) :
    ∀ es : List Element, addNodeElems d es = none ↔
      ∀ e ∈ es, ¬(e.group = "nodes" ∧ e.data.id = d.id) := by
  intro es
  induction es with
  | nil => simp [addNodeElems]
  | cons e es ih =>
    by_cases h : e.group = "nodes" ∧ e.data.id = d.id
    · simp only [addNodeElems, if_pos h]
      constructor
      · intro hno
        exact absurd hno (by simp)
      · intro hall
        exact absurd h (hall e (List.mem_cons_self e es))
    · simp only [addNodeElems, if_neg h, Option.map_eq_none']
      rw [ih]
      constructor
      · intro hall x hx
        rcases List.mem_cons.mp hx with rfl | hmem
        · exact h
        · exact hall x hmem
      · intro hall x hx
        exact hall x (List.mem_cons_of_mem _ hx)

/-- Every element of the successful scan result is an old element or the
freshly written concrete node. -/
theorem addNodeElems_mem (d : ElementData) :
    ∀ es es' : List Element, addNodeElems d es = some es' →
      ∀ x ∈ es', x ∈ es ∨ x = { group := "nodes", data := d } := by
  intro es
  induction es with
  | nil => intro es' h; simp [addNodeElems] at h
  | cons e es ih =>
    intro es' h
    by_cases hc : e.group = "nodes" ∧ e.data.id = d.id
    · simp only [addNodeElems, if_pos hc, Option.some.injEq] at h
      subst h
      intro x hx
      rcases List.mem_cons.mp hx with rfl | hmem
      · by_cases he : e.data.type = "error"
        · rw [if_pos he]
          right
          rw [hc.1]
        · rw [if_neg he]
          exact Or.inl (List.mem_cons_self e es)
      · exact Or.inl (List.mem_cons_of_mem _ hmem)
    · simp only [addNodeElems, if_neg hc] at h
      rcases Option.map_eq_some'.mp h with ⟨es₀, h₀, rfl⟩
      intro x hx
      rcases List.mem_cons.mp hx with rfl | hmem
      · exact Or.inl (List.mem_cons_self x es)
      · rcases ih es₀ h₀ x hmem with hin | heq
        · exact Or.inl (List.mem_cons_of_mem _ hin)
        · exact Or.inr heq

/-- Every old element either carried the written id or survives the scan. -/
theorem addNodeElems_keep (d : ElementData) :
    ∀ es es' : List Element, addNodeElems d es = some es' →
      ∀ x ∈ es, (x.group = "nodes" ∧ x.data.id = d.id) ∨ x ∈ es' := by
  intro es
  induction es with
  | nil => intro es' h; simp [addNodeElems] at h
  | cons e es ih =>
    intro es' h
    by_cases hc : e.group = "nodes" ∧ e.data.id = d.id
    · simp only [addNodeElems, if_pos hc, Option.some.injEq] at h
      subst h
      intro x hx
      rcases List.mem_cons.mp hx with rfl | hmem
      · exact Or.inl hc
      · exact Or.inr (List.mem_cons_of_mem _ hmem)
    · simp only [addNodeElems, if_neg hc] at h
      rcases Option.map_eq_some'.mp h with ⟨es₀, h₀, rfl⟩
      intro x hx
      rcases List.mem_cons.mp hx with rfl | hmem
      · exact Or.inr (List.mem_cons_self x es₀)
      · rcases ih es₀ h₀ x hmem with hid | hin
        · exact Or.inl hid
        · exact Or.inr (List.mem_cons_of_mem _ hin)

/-- When no node carrying the written id is an error node, the scan leaves
the element list unchanged. -/
theorem addNodeElems_no_error (d : ElementData) :
    ∀ es es' : List Element, addNodeElems d es = some es' →
      (∀ x ∈ es, x.group = "nodes" → x.data.id = d.id → x.data.type ≠ "error") →
      es' = es := by
  intro es
  induction es with
  | nil => intro es' h; simp [addNodeElems] at h
  | cons e es ih =>
    intro es' h hno
    by_cases hc : e.group = "nodes" ∧ e.data.id = d.id
    · simp only [addNodeElems, if_pos hc, Option.some.injEq] at h
      subst h
      rw [if_neg (hno e (List.mem_cons_self e es) hc.1 hc.2)]
    · simp only [addNodeElems, if_neg hc] at h
      rcases Option.map_eq_some'.mp h with ⟨es₀, h₀, rfl⟩
      rw [ih es₀ h₀ (fun x hx => hno x (List.mem_cons_of_mem _ hx))]

/-- The set of node types the parser ever writes. -/
def allowedTypes : List String := ["overlay", "resource", "component", "error"]

/-- The type of every node element is one of the four allowed types. -/
def typesOK (es : List Element) : Prop :=
  ∀ e ∈ es, e.group = "nodes" → e.data.type ∈ allowedTypes

theorem typesOK_addNode (g : Graph) (id t p : String) (k : Option Kustomization) (b : String)
    (ht : t ∈ allowedTypes) (h : typesOK g.elements) :
    typesOK (addNode g id t p k b).elements := by
  simp only [addNode]
  cases hscan : addNodeElems
      { id := id, label := getShortLabel p, type := t, path := p,
        content := Option.map NodeContent.kust k } g.elements with
  | none =>
    dsimp only
    intro x hx hg
    rcases List.mem_append.mp hx with hold | hnew
    · exact h x hold hg
    · rcases List.mem_singleton.mp hnew with rfl
      exact ht
  | some es' =>
    dsimp only
    intro x hx hg
    rcases addNodeElems_mem _ _ _ hscan x hx with hold | rfl
    · exact h x hold hg
    · exact ht

theorem typesOK_addErrorNode (g : Graph) (id p m b : String) (h : typesOK g.elements) :
    typesOK (addErrorNode g id p m b).elements := by
  simp only [addErrorNode]
  split
  · exact h
  · dsimp only
    intro x hx hg
    rcases List.mem_append.mp hx with hold | hnew
    · exact h x hold hg
    · rcases List.mem_singleton.mp hnew with rfl
      simp [allowedTypes]

theorem typesOK_addEdge (g : Graph) (s t e : String) (h : typesOK g.elements) :
    typesOK (addEdge g s t e).elements := by
  simp only [addEdge]
  split
  · exact h
  · dsimp only
    intro x hx hg
    rcases List.mem_append.mp hx with hold | hnew
    · exact h x hold hg
    · rcases List.mem_singleton.mp hnew with rfl
      simp at hg

/-- Every node element carrying the entry id has type "overlay". -/
def typedAll (nid ty : String) (es : List Element) : Prop :=
  ∀ e ∈ es, e.group = "nodes" → e.data.id = nid → e.data.type = ty

/-- Some node element carries the id with the given type. -/
def typedEx (nid ty : String) (es : List Element) : Prop :=
  ∃ e, e ∈ es ∧ e.group = "nodes" ∧ e.data.id = nid ∧ e.data.type = ty

/-- The node with this id exists and every node element carrying the id
has the given type. -/
def typedInv (nid ty : String) (es : List Element) : Prop :=
  typedAll nid ty es ∧ typedEx nid ty es

theorem typedEx_hasNode (nid ty : String) (es : List Element) (h : typedEx nid ty es) :
    hasNodeWithID es nid = true := by
  rcases h with ⟨w, hw, hg, hid, _⟩
  unfold hasNodeWithID
  rw [List.any_eq_true]
  exact ⟨w, hw, by simp [hg, hid]⟩

theorem hasNodeWithID_false (es : List Element) (nid : String)
    (h : hasNodeWithID es nid = false) :
    ∀ e ∈ es, ¬(e.group = "nodes" ∧ e.data.id = nid) := by
  intro e he hcontra
  have ht : hasNodeWithID es nid = true := by
    unfold hasNodeWithID
    rw [List.any_eq_true]
    exact ⟨e, he, by simp [hcontra.1, hcontra.2]⟩
  rw [h] at ht
  cases ht

theorem typedInv_addNode (nid ty : String) (hty : ty ≠ "error") (g : Graph)
    (id t p : String) (k : Option Kustomization) (b : String)
    (h : typedInv nid ty g.elements) :
    typedInv nid ty (addNode g id t p k b).elements := by
  obtain ⟨hall, hex⟩ := h
  simp only [addNode]
  cases hscan : addNodeElems
      { id := id, label := getShortLabel p, type := t, path := p,
        content := Option.map NodeContent.kust k } g.elements with
  | none =>
    dsimp only
    have hidne : id ≠ nid := by
      intro hideq
      rcases hex with ⟨w, hw, hg, hid, _⟩
      exact (addNodeElems_eq_none _ g.elements).mp hscan w hw ⟨hg, by simp [hid, hideq]⟩
    constructor
    · intro x hx hg hid
      rcases List.mem_append.mp hx with hold | hnew
      · exact hall x hold hg hid
      · rcases List.mem_singleton.mp hnew with rfl
        exact absurd hid hidne
    · rcases hex with ⟨w, hw, hwg, hwid, hwt⟩
      exact ⟨w, List.mem_append_left _ hw, hwg, hwid, hwt⟩
  | some es' =>
    dsimp only
    by_cases hid : id = nid
    · subst hid
      have hes : es' = g.elements := by
        refine addNodeElems_no_error _ _ _ hscan ?_
        intro x hx hg hid2
        rw [hall x hx hg hid2]
        exact hty
      rw [hes]
      exact ⟨hall, hex⟩
    · constructor
      · intro x hx hg hid2
        rcases addNodeElems_mem _ _ _ hscan x hx with hold | rfl
        · exact hall x hold hg hid2
        · exact absurd hid2 hid
      · rcases hex with ⟨w, hw, hwg, hwid, hwt⟩
        rcases addNodeElems_keep _ _ _ hscan w hw with hmatch | hin
        · exact absurd (hwid.symm.trans hmatch.2) fun hh => hid hh.symm
        · exact ⟨w, hin, hwg, hwid, hwt⟩

theorem typedInv_addErrorNode (nid ty : String) (g : Graph) (id p m b : String)
    (h : typedInv nid ty g.elements) :
    typedInv nid ty (addErrorNode g id p m b).elements := by
  obtain ⟨hall, hex⟩ := h
  simp only [addErrorNode]
  split
  · exact ⟨hall, hex⟩
  · rename_i hno
    dsimp only
    have hidne : id ≠ nid := by
      intro hideq
      subst hideq
      exact hno (typedEx_hasNode _ _ _ hex)
    constructor
    · intro x hx hg hid2
      rcases List.mem_append.mp hx with hold | hnew
      · exact hall x hold hg hid2
      · rcases List.mem_singleton.mp hnew with rfl
        exact absurd hid2 hidne
    · rcases hex with ⟨w, hw, hwg, hwid, hwt⟩
      exact ⟨w, List.mem_append_left _ hw, hwg, hwid, hwt⟩

theorem typedInv_addEdge (nid ty : String) (g : Graph) (s t e : String)
    (h : typedInv nid ty g.elements) :
    typedInv nid ty (addEdge g s t e).elements := by
  obtain ⟨hall, hex⟩ := h
  simp only [addEdge]
  split
  · exact ⟨hall, hex⟩
  · dsimp only
    constructor
    · intro x hx hg hid2
      rcases List.mem_append.mp hx with hold | hnew
      · exact hall x hold hg hid2
      · rcases List.mem_singleton.mp hnew with rfl
        simp at hg
    · rcases hex with ⟨w, hw, hwg, hwid, hwt⟩
      exact ⟨w, List.mem_append_left _ hw, hwg, hwid, hwt⟩

/-- addNode on a graph carrying no node with the id establishes the
invariant for that id with the written type. -/
theorem typedInv_addNode_fresh (g : Graph) (id : String)
    (hno : hasNodeWithID g.elements id = false) (t p : String) (k : Option Kustomization)
    (b : String) : typedInv id t (addNode g id t p k b).elements := by
  have hnone : addNodeElems
      { id := id, label := getShortLabel p, type := t, path := p,
        content := Option.map NodeContent.kust k } g.elements = none :=
    (addNodeElems_eq_none _ g.elements).mpr (hasNodeWithID_false g.elements id hno)
  simp only [addNode]
  rw [hnone]
  dsimp only
  constructor
  · intro x hx hg hid
    rcases List.mem_append.mp hx with hold | hnew
    · exact absurd ⟨hg, hid⟩ (hasNodeWithID_false g.elements id hno x hold)
    · rcases List.mem_singleton.mp hnew with rfl
      rfl
  · exact ⟨_, List.mem_append_right _ (List.mem_singleton.mpr rfl), rfl, rfl, rfl⟩

/-- An existing typed node survives addEdge. -/
theorem typedEx_addEdge (nid ty : String) (g : Graph) (s t e : String)
    (h : typedEx nid ty g.elements) : typedEx nid ty (addEdge g s t e).elements := by
  rcases h with ⟨w, hw, hwg, hwid, hwt⟩
  simp only [addEdge]
  split
  · exact ⟨w, hw, hwg, hwid, hwt⟩
  · exact ⟨w, List.mem_append_left _ hw, hwg, hwid, hwt⟩

/-- addErrorNode on an id carried by no existing node writes a
type-"error" node element. -/
theorem typedEx_addErrorNode_fresh (g : Graph) (id p m b : String)
    (hno : hasNodeWithID g.elements id = false) :
    typedEx id "error" (addErrorNode g id p m b).elements := by
  simp only [addErrorNode]
  split
  · rename_i hyes
    rw [hno] at hyes
    cases hyes
  · dsimp only
    exact ⟨_, List.mem_append_right _ (List.mem_singleton.mpr rfl), rfl, rfl, rfl⟩

/-- Every error branch of processReference writes a type-"error" node for
a child id carried by no existing node. -/
theorem errOut_typedEx (st : ParserState) (parentID childID pth msg baseURL refType : String)
    (hno : hasNodeWithID st.graph.elements childID = false) :
    typedEx childID "error"
      (errOut st parentID childID pth msg baseURL refType).1.graph.elements :=
  typedEx_addEdge childID "error" (addErrorNode st.graph childID pth msg baseURL)
    parentID childID refType
    (typedEx_addErrorNode_fresh st.graph childID pth msg baseURL hno)

/-- Adding an edge element never changes which node ids exist. -/
theorem hasNodeWithID_addEdge (g : Graph) (s t e id : String) :
    hasNodeWithID (addEdge g s t e).elements id = hasNodeWithID g.elements id := by
  simp only [addEdge]
  split
  · rfl
  · dsimp only
    simp [hasNodeWithID]

/-- The conditional LocalRootPaths write of processReference leaves the
element list untouched. -/
theorem setLocalRootIf_graph_elements (c : Prop) [Decidable c] (st : ParserState)
    (cid rp : String) :
    (if c then setLocalRootSt st cid rp else st).graph.elements = st.graph.elements := by
  split <;> rfl

/-- The conditional LocalRootPaths write of processReference leaves the
visited set untouched. -/
theorem setLocalRootIf_visited (c : Prop) [Decidable c] (st : ParserState)
    (cid rp : String) :
    (if c then setLocalRootSt st cid rp else st).visitedURLs = st.visitedURLs := by
  split <;> rfl

/-- IDs of the node elements of a graph, in element order. -/
def nodeIDs (g : Graph) : List String :=
  (g.elements.filter (fun e => e.group = "nodes")).map (fun e => e.data.id)

/-- (source, target, edgeType) of the edge elements of a graph. -/
def edgeTriples (g : Graph) : List (String × String × String) :=
  (g.elements.filter (fun e => e.group = "edges")).map
    (fun e => (e.data.source, e.data.target, e.data.edgeType))

/-- The graph the cycle scenario produces. -/
def cycleGraph : Graph :=
  { elements :=
      [ { group := "nodes",
          data := { id := aID, label := "a", type := "overlay", path := "a",
                    content := some (NodeContent.kust { resources := ["../b"] }) } },
        { group := "edges",
          data := { id := aID ++ "->" ++ bID, source := aID, target := bID,
                    edgeType := "resource" } },
        { group := "nodes",
          data := { id := bID, label := "b", type := "resource", path := "b",
                    content := some (NodeContent.kust { resources := ["../a"] }) } },
        { group := "edges",
          data := { id := bID ++ "->" ++ aID, source := bID, target := aID,
                    edgeType := "resource" } } ],
    baseURLs := [(aID, "https://github.com"), (bID, "https://github.com")] }

example : parserParse envCycle 20 scState "a" = Except.ok cycleGraph := rfl

/-- The graph the bad-child-YAML scenario produces: the edge to "b" is
present but no node with bID was ever added. -/
def badChildGraph : Graph :=
  { elements :=
      [ { group := "nodes",
          data := { id := aID, label := "a", type := "overlay", path := "a",
                    content := some (NodeContent.kust { resources := ["../b"] }) } },
        { group := "edges",
          data := { id := aID ++ "->" ++ bID, source := aID, target := bID,
                    edgeType := "resource" } } ],
    baseURLs := [(aID, "https://github.com")] }

/-- C1: the claim that the source and target of every edge name nodes
present in the elements of the produced graph fails on the code: when a
child directory is
fetched successfully but its kustomization content does not unmarshal as
YAML, processReference has already added the edge, and the recursive
processKustomization returns before adding any node, so the completed
parse returns a graph with a dangling edge.  This theorem evaluates the
parse at that failing input. -/
theorem claimC1 :
    parserParse envBadChild 20 scState "a" = Except.ok badChildGraph ∧
    (badChildGraph.elements.any fun e =>
      e.group = "edges" ∧ e.data.source = aID ∧ e.data.target = bID) = true ∧
    hasNodeWithID badChildGraph.elements bID = false ∧
    hasNodeWithID badChildGraph.elements aID = true := by
  refine ⟨rfl, by decide, by decide, by decide⟩

/-- The scan of addNode on a decomposed element list whose first matching
node element is exhibited. -/
theorem addNodeElems_found (d : ElementData) :
    ∀ (es₁ : List Element) (e : Element) (es₂ : List Element),
      (∀ x ∈ es₁, ¬(x.group = "nodes" ∧ x.data.id = d.id)) →
      e.group = "nodes" → e.data.id = d.id →
      addNodeElems d (es₁ ++ e :: es₂)
        = some (es₁ ++
            (if e.data.type = "error" then { group := e.group, data := d } else e) :: es₂) := by
  intro es₁
  induction es₁ with
  | nil =>
    intro e es₂ h₁ hg hid
    simp only [List.nil_append, addNodeElems, if_pos (And.intro hg hid)]
  | cons x xs ih =>
    intro e es₂ h₁ hg hid
    have hx : ¬(x.group = "nodes" ∧ x.data.id = d.id) := h₁ x (List.mem_cons_self x xs)
    simp only [List.cons_append, addNodeElems, if_neg hx, List.append_eq]
    rw [ih e es₂ (fun y hy => h₁ y (List.mem_cons_of_mem _ hy)) hg hid]
    rfl

/-- C2: node re-addition is one-directional.  Exhibiting the first node
element carrying the id: addNode replaces it in place exactly when it is
an error node (success wins over prior error) and leaves the element list
unchanged when it is a concrete node; addErrorNode is a no-op on the whole
graph whenever any node with the id exists (error never overwrites
success). -/
theorem claimC2 :
    (∀ (g : Graph) (id t p : String) (k : Option Kustomization) (b : String)
        (es₁ : List Element) (e : Element) (es₂ : List Element),
        g.elements = es₁ ++ e :: es₂ →
        (∀ x ∈ es₁, ¬(x.group = "nodes" ∧ x.data.id = id)) →
        e.group = "nodes" → e.data.id = id →
        ((e.data.type = "error" →
            (addNode g id t p k b).elements
              = es₁ ++ ({ group := "nodes",
                          data := { id := id, label := getShortLabel p, type := t, path := p,
                                    content := Option.map NodeContent.kust k } } : Element)
                  :: es₂) ∧
         (e.data.type ≠ "error" → (addNode g id t p k b).elements = g.elements))) ∧
    (∀ (g : Graph) (id p m b : String),
        hasNodeWithID g.elements id = true → addErrorNode g id p m b = g) := by
  constructor
  · intro g id t p k b es₁ e es₂ hdecomp h₁ hg hid
    have hfound := addNodeElems_found
      { id := id, label := getShortLabel p, type := t, path := p,
        content := Option.map NodeContent.kust k } es₁ e es₂ h₁ hg hid
    constructor
    · intro herr
      simp only [addNode, hdecomp, hfound, if_pos herr]
      rw [hg]
    · intro hne
      simp only [addNode, hdecomp, hfound, if_neg hne]
  · intro g id p m b hhas
    simp only [addErrorNode, if_pos hhas]

/-- A concrete graph whose only element is an error node with id bID. -/
def errStubGraph : Graph :=
  { elements :=
      [ { group := "nodes",
          data := { id := bID, label := "b", type := "error", path := "b",
                    content := some (NodeContent.errMsg "File not found") } } ] }

/-- Witness for C2 at concrete inputs: the error stub is upgraded in place
by addNode, a concrete node is not overwritten by addNode, and
addErrorNode is a no-op on an existing node. -/
theorem claimC2_witness :
    (addNode errStubGraph bID "resource" "b" (some {}) "").elements
        = [ { group := "nodes",
              data := { id := bID, label := "b", type := "resource", path := "b",
                        content := some (NodeContent.kust {}) } } ] ∧
    (addNode cycleGraph aID "resource" "a" none "").elements = cycleGraph.elements ∧
    addErrorNode cycleGraph aID "a" "boom" "" = cycleGraph := by
  refine ⟨?_, ?_, ?_⟩
  · exact (claimC2.1 errStubGraph bID "resource" "b" (some {}) "" [] _ [] rfl
      (by intro x hx; cases hx) rfl rfl).1 rfl
  · exact (claimC2.1 cycleGraph aID "resource" "a" none "" [] _ _ rfl
      (by intro x hx; cases hx) rfl rfl).2 (by decide)
  · exact claimC2.2 cycleGraph aID "a" "boom" "" (by decide)

/-- C4: the visited set cuts cycles.  First conjunct: re-invoking
processKustomization on an already-visited node id returns immediately
with the state unchanged.  Second conjunct: after any invocation with
fuel left, the id is visited (it is marked on first entry).  Third
conjunct: the mutual-reference scenario (a references ../b, b references
../a) terminates with exactly the two nodes and the two edges. -/
theorem claimC4 :
    (∀ env fuel nodeID content currentPath currentRepo nodeType st,
        st.visitedURLs.contains nodeID = true →
        processKustomization env (fuel + 1) nodeID content currentPath currentRepo nodeType st
          = (st, none)) ∧
    (∀ env fuel nodeID content currentPath currentRepo nodeType st,
        nodeID ∈ (processKustomization env (fuel + 1) nodeID content currentPath currentRepo
            nodeType st).1.visitedURLs) ∧
    (parserParse envCycle 20 scState "a" = Except.ok cycleGraph ∧
      nodeIDs cycleGraph = [aID, bID] ∧
      edgeTriples cycleGraph = [(aID, bID, "resource"), (bID, aID, "resource")]) := by
  refine ⟨?_, ?_, rfl, by decide, by decide⟩
  · intro env fuel nodeID content currentPath currentRepo nodeType st h
    simp only [processKustomization, h]
    rfl
  · intro env fuel nodeID content currentPath currentRepo nodeType st
    simp only [processKustomization]
    split
    · rename_i h
      exact List.mem_of_elem_eq_true h
    · split
      · exact List.mem_cons_self _ _
      · rename_i kust heq
        exact (visitedMono fuel).2.2.1 env nodeID kust.components currentPath currentRepo _
          ((visitedMono fuel).2.1 env nodeID (kust.resources ++ kust.bases) currentPath
            currentRepo _ (List.mem_cons_self _ _))

/-- Node ID of the direct YAML component file in the C3 scenario. -/
def cYamlID : String := "github:o/r/a/c.yaml@main"

/-- The graph produced when the entry kustomization lists the direct YAML
file "c.yaml" under components. -/
def yamlComponentGraph : Graph :=
  { elements :=
      [ { group := "nodes",
          data := { id := aID, label := "a", type := "overlay", path := "a",
                    content := some (NodeContent.kust { components := ["c.yaml"] }) } },
        { group := "nodes",
          data := { id := cYamlID, label := "a/c.yaml", type := "resource",
                    path := "a/c.yaml", content := none } },
        { group := "edges",
          data := { id := aID ++ "->" ++ cYamlID, source := aID, target := cYamlID,
                    edgeType := "component" } } ],
    baseURLs := [(aID, "https://github.com"), (cYamlID, "https://github.com")] }

/-- C3 counterexample: a direct YAML file listed under components produces
a node of type "resource" reached by an edge labelled "component", so the
claim that the type of every descendant node equals the label of the edge that
reached it (including direct YAML file references) is false at this
concrete input. -/
theorem claimC3_counter :
    parserParse envYamlComponent 20 scState "a" = Except.ok yamlComponentGraph ∧
    (yamlComponentGraph.elements.any fun e =>
      e.group = "edges" ∧ e.data.target = cYamlID ∧ e.data.edgeType = "component") = true ∧
    (yamlComponentGraph.elements.any fun e =>
      e.group = "nodes" ∧ e.data.id = cYamlID ∧ e.data.type = "resource") = true ∧
    (yamlComponentGraph.elements.all fun e =>
      ¬(e.group = "nodes" ∧ e.data.id = cYamlID ∧ e.data.type = "component")) = true := by
  refine ⟨rfl, by decide, by decide, by decide⟩

/-- processReference on a non-YAML reference whose fetcher setup and fetch
both succeed adds the parent edge and recurses into processKustomization,
passing the edge label refType as the node type of the child. -/
theorem processReference_go (env : ParserEnv) (fuel : Nat)
    (parentID ref refType currentPath : String) (currentRepo : RepositoryInfo)
    (st : ParserState) (kref : KustomizeReference) (f : Fetcher) (r : RepositoryInfo)
    (p content : String) (hyaml : isYAMLFile ref = false)
    (hparse : env.parseReference ref (st.tokens currentRepo.type) = Except.ok kref)
    (hsetup : refSetup env st parentID refType currentPath currentRepo kref
      = RefSetup.go f r p st)
    (hfetch : f p = Except.ok content) :
    processReference env (fuel + 1) parentID ref refType currentPath currentRepo st
      = processKustomization env fuel (buildNodeID r p) content p r refType
          (addEdgeSt
            (if r.type = RepositoryType.localRepo ∧ r.rootPath ≠ ""
                ∧ ¬ sameRepoAsEntry st.repoInfo r
              then setLocalRootSt st (buildNodeID r p) r.rootPath else st)
            parentID (buildNodeID r p) refType) := by
  simp only [processReference]
  rw [if_neg (by rw [hyaml]; exact Bool.false_ne_true)]
  rw [hparse]
  dsimp only
  rw [hsetup]
  dsimp only
  rw [hfetch]

/-- A first-visit processKustomization whose YAML parses, on a node id
carried by no existing node, writes a node of its nodeType argument. -/
theorem processKustomization_fresh_typedEx (env : ParserEnv) (fuel : Nat)
    (nodeID content currentPath : String) (currentRepo : RepositoryInfo)
    (nodeType : String) (st : ParserState) (kust : Kustomization)
    (hvis : st.visitedURLs.contains nodeID = false)
    (hunm : env.yamlUnmarshal content = Except.ok kust)
    (hno : hasNodeWithID st.graph.elements nodeID = false)
    (hne : nodeType ≠ "error") :
    typedEx nodeID nodeType
      (processKustomization env (fuel + 1) nodeID content currentPath currentRepo nodeType
        st).1.graph.elements := by
  simp only [processKustomization]
  rw [if_neg (by rw [hvis]; exact Bool.false_ne_true)]
  rw [hunm]
  dsimp only
  have h1 : typedInv nodeID nodeType
      (addNodeSt { st with visitedURLs := nodeID :: st.visitedURLs }
        nodeID nodeType currentPath (some kust) currentRepo.baseURL).graph.elements :=
    typedInv_addNode_fresh st.graph nodeID hno nodeType currentPath (some kust)
      currentRepo.baseURL
  have hpres := elemsPreserved (typedInv nodeID nodeType) (fun _ => True) trivial trivial
    (fun g2 id t p2 k2 b2 _ hP => typedInv_addNode nodeID nodeType hne g2 id t p2 k2 b2 hP)
    (fun g2 id p2 m b2 hP => typedInv_addErrorNode nodeID nodeType g2 id p2 m b2 hP)
    (fun g2 s t2 e2 hP => typedInv_addEdge nodeID nodeType g2 s t2 e2 hP) fuel
  exact (hpres.2.2.1 env nodeID kust.components currentPath currentRepo _
    (hpres.2.1 env nodeID (kust.resources ++ kust.bases) currentPath currentRepo _ h1)).2

/-- Scenario for the failed-parse branch of C3: the reference "::bad"
does not parse (the real ParseReference fails on it), every other
reference is relative. -/
def envBadRef : ParserEnv :=
  { parseReference := fun r _ =>
      if r = "::bad" then Except.error "boom" else simpleParseReference r "",
    yamlUnmarshal := fun _ => Except.error "unreached",
    validateLocalPathO := unreachedS,
    detectLocalRepository := unreachedS,
    newLocalFetcher := fun _ => Except.error "unreached",
    fetcherFactory := fun _ _ => Except.error "unreached" }

/-- C3 amended: in every graph of a completed parse from a fresh state,
the entry node is present with type "overlay"; every node type is one of
overlay, resource, component, error; a direct YAML file reference
always produces a type-"resource" leaf whose edge keeps the referencing
label (so a YAML file under components hangs off a component-labelled
edge as a resource node), with no recursion; a node created by recursing
into a reference (fetcher setup, fetch and YAML parse all succeed, child
unvisited and absent from the graph) gets the label refType of the
reaching edge as its type; and a failed reference, whether the reference
fails to parse or the child fetch fails, produces a type-"error" node. -/
theorem claimC3 :
    (∀ env fuel st startPath g, st.graph.elements = [] → st.visitedURLs = [] →
        parserParse env fuel st startPath = Except.ok g →
        typedEx (buildNodeID st.repoInfo startPath) "overlay" g.elements) ∧
    (∀ env fuel st startPath g, typesOK st.graph.elements →
        parserParse env fuel st startPath = Except.ok g → typesOK g.elements) ∧
    (∀ env fuel parentID ref refType currentPath currentRepo st, isYAMLFile ref = true →
        processReference env (fuel + 1) parentID ref refType currentPath currentRepo st
          = (addEdgeSt (addNodeSt st (buildNodeID currentRepo (pathJoin currentPath ref))
                "resource" (pathJoin currentPath ref) none currentRepo.baseURL)
              parentID (buildNodeID currentRepo (pathJoin currentPath ref)) refType, none)) ∧
    (∀ env fuel parentID ref refType currentPath currentRepo st kref f r p content kust,
        isYAMLFile ref = false →
        env.parseReference ref (st.tokens currentRepo.type) = Except.ok kref →
        refSetup env st parentID refType currentPath currentRepo kref
          = RefSetup.go f r p st →
        f p = Except.ok content →
        env.yamlUnmarshal content = Except.ok kust →
        st.visitedURLs.contains (buildNodeID r p) = false →
        hasNodeWithID st.graph.elements (buildNodeID r p) = false →
        refType ≠ "error" →
        typedEx (buildNodeID r p) refType
          (processReference env (fuel + 1 + 1) parentID ref refType currentPath currentRepo
            st).1.graph.elements) ∧
    (∀ env fuel parentID ref refType currentPath currentRepo st e,
        isYAMLFile ref = false →
        env.parseReference ref (st.tokens currentRepo.type) = Except.error e →
        hasNodeWithID st.graph.elements ("error:" ++ ref) = false →
        typedEx ("error:" ++ ref) "error"
          (processReference env (fuel + 1) parentID ref refType currentPath currentRepo
            st).1.graph.elements) ∧
    (∀ env fuel parentID ref refType currentPath currentRepo st kref f r p e,
        isYAMLFile ref = false →
        env.parseReference ref (st.tokens currentRepo.type) = Except.ok kref →
        refSetup env st parentID refType currentPath currentRepo kref
          = RefSetup.go f r p st →
        f p = Except.error e →
        hasNodeWithID st.graph.elements (buildNodeID r p) = false →
        typedEx (buildNodeID r p) "error"
          (processReference env (fuel + 1) parentID ref refType currentPath currentRepo
            st).1.graph.elements) := by
  refine ⟨?_, ?_, ?_, ?_, ?_, ?_⟩
  · intro env fuel st startPath g hel hvis h
    simp only [parserParse] at h
    split at h
    · cases h
    · rename_i content hfetch
      split at h
      · cases h
      · rename_i st2 heq
        cases h
        cases fuel with
        | zero => simp [processKustomization, Prod.ext_iff] at heq
        | succ n =>
          simp only [processKustomization, hvis, List.contains_nil] at heq
          split at heq
          · simp at *
          · split at heq
            · simp [Prod.ext_iff] at heq
            · rename_i kust hyaml
              have hstate := congrArg Prod.fst heq
              dsimp only at hstate
              rw [← hstate]
              have h1 : typedInv (buildNodeID st.repoInfo startPath) "overlay"
                  (addNodeSt { st with visitedURLs := [buildNodeID st.repoInfo startPath] }
                    (buildNodeID st.repoInfo startPath) "overlay" startPath (some kust)
                    st.repoInfo.baseURL).graph.elements :=
                typedInv_addNode_fresh st.graph (buildNodeID st.repoInfo startPath)
                  (by rw [hel]; rfl) "overlay" startPath (some kust) st.repoInfo.baseURL
              have hpres := elemsPreserved
                (typedInv (buildNodeID st.repoInfo startPath) "overlay")
                (fun _ => True) trivial trivial
                (fun g2 id t p2 k2 b2 _ hP =>
                  typedInv_addNode (buildNodeID st.repoInfo startPath) "overlay" (by decide)
                    g2 id t p2 k2 b2 hP)
                (fun g2 id p2 m b2 hP =>
                  typedInv_addErrorNode (buildNodeID st.repoInfo startPath) "overlay"
                    g2 id p2 m b2 hP)
                (fun g2 s t2 e2 hP =>
                  typedInv_addEdge (buildNodeID st.repoInfo startPath) "overlay"
                    g2 s t2 e2 hP) n
              exact (hpres.2.2.1 env _ kust.components startPath st.repoInfo _
                (hpres.2.1 env _ (kust.resources ++ kust.bases) startPath st.repoInfo _ h1)).2
  · intro env fuel st startPath g hT h
    simp only [parserParse] at h
    split at h
    · cases h
    · rename_i content hfetch
      split at h
      · cases h
      · rename_i st2 heq
        cases h
        have hpres := elemsPreserved typesOK (fun t => t ∈ allowedTypes)
          (by decide) (by decide) typesOK_addNode typesOK_addErrorNode typesOK_addEdge fuel
        have := hpres.1 env (buildNodeID st.repoInfo startPath) content startPath st.repoInfo
          "overlay" st (by decide) hT
        rw [heq] at this
        exact this
  · intro env fuel parentID ref refType currentPath currentRepo st h
    simp only [processReference, if_pos h]
  · intro env fuel parentID ref refType currentPath currentRepo st kref f r p content kust
      hyaml hparse hsetup hfetch hunm hvis hno hne
    rw [processReference_go env (fuel + 1) parentID ref refType currentPath currentRepo st
      kref f r p content hyaml hparse hsetup hfetch]
    refine processKustomization_fresh_typedEx env fuel (buildNodeID r p) content p r refType
      _ kust ?_ hunm ?_ hne
    · rw [addEdgeSt_visited, setLocalRootIf_visited]
      exact hvis
    · rw [addEdgeSt_graph, hasNodeWithID_addEdge, setLocalRootIf_graph_elements]
      exact hno
  · intro env fuel parentID ref refType currentPath currentRepo st e hyaml hparse hno
    simp only [processReference]
    rw [if_neg (by rw [hyaml]; exact Bool.false_ne_true)]
    rw [hparse]
    dsimp only
    exact errOut_typedEx st parentID ("error:" ++ ref) ref
      ("Failed to parse reference: " ++ e) currentRepo.baseURL refType hno
  · intro env fuel parentID ref refType currentPath currentRepo st kref f r p e
      hyaml hparse hsetup hfetch hno
    simp only [processReference]
    rw [if_neg (by rw [hyaml]; exact Bool.false_ne_true)]
    rw [hparse]
    dsimp only
    rw [hsetup]
    dsimp only
    rw [hfetch]
    dsimp only
    refine errOut_typedEx _ parentID (buildNodeID r p) p
      ("File not found or inaccessible: " ++ e) r.baseURL refType ?_
    rw [setLocalRootIf_graph_elements]
    exact hno

/-- Witness for C3 at concrete inputs: the entry node of the cycle
scenario is an overlay, its node types are all allowed, a YAML component
reference expands to a resource node plus a component edge, the
recursion into "../b" under resources creates the node of "b" with type
"resource", and an unparsable reference and a failing fetch each create
a type-"error" node. -/
theorem claimC3_witness :
    typedEx aID "overlay" cycleGraph.elements ∧
    typesOK cycleGraph.elements ∧
    (processReference envYamlComponent 5 aID "c.yaml" "component" "a" scRepo scState
      = (addEdgeSt (addNodeSt scState cYamlID "resource" "a/c.yaml" none "https://github.com")
          aID cYamlID "component", none)) ∧
    typedEx bID "resource"
      (processReference envCycle 5 aID "../b" "resource" "a" scRepo
        scState).1.graph.elements ∧
    typedEx ("error:" ++ "::bad") "error"
      (processReference envBadRef 1 aID "::bad" "resource" "a" scRepo
        scState).1.graph.elements ∧
    typedEx "github:o/r/c@main" "error"
      (processReference envCycle 1 aID "../c" "resource" "a" scRepo
        scState).1.graph.elements := by
  refine ⟨?_, ?_, ?_, ?_, ?_, ?_⟩
  · exact claimC3.1 envCycle 20 scState "a" cycleGraph rfl rfl rfl
  · exact claimC3.2.1 envCycle 20 scState "a" cycleGraph (by intro e he; cases he) rfl
  · exact claimC3.2.2.1 envYamlComponent 4 aID "c.yaml" "component" "a" scRepo scState
      (by decide)
  · exact claimC3.2.2.2.1 envCycle 3 aID "../b" "resource" "a" scRepo scState
      { type := ReferenceType.relative, original := "../b", relativePath := "../b" }
      scFetch scRepo "b" "kb" { resources := ["../a"] }
      rfl rfl rfl rfl rfl rfl rfl (by decide)
  · exact claimC3.2.2.2.2.1 envBadRef 0 aID "::bad" "resource" "a" scRepo scState "boom"
      rfl rfl rfl
  · exact claimC3.2.2.2.2.2 envCycle 0 aID "../c" "resource" "a" scRepo scState
      { type := ReferenceType.relative, original := "../c", relativePath := "../c" }
      scFetch scRepo "c" "no kustomization file found in path: "
      rfl rfl rfl rfl rfl

/-- Witness for C4: the short-circuit applied at a concrete visited state,
and the marking applied at a concrete fresh state. -/
theorem claimC4_witness :
    processKustomization envCycle 5 aID "ka" "a" scRepo "overlay"
        { scState with visitedURLs := [aID] }
      = ({ scState with visitedURLs := [aID] }, none) ∧
    aID ∈ (processKustomization envCycle 5 aID "ka" "a" scRepo "overlay" scState).1.visitedURLs := by
  constructor
  · exact claimC4.1 envCycle 4 aID "ka" "a" scRepo "overlay"
      { scState with visitedURLs := [aID] } (by decide)
  · exact claimC4.2.1 envCycle 4 aID "ka" "a" scRepo "overlay" scState

/-! ## Node ID wire format (part_011 buildNodeID; ParseNodeID of package build) -/

/-- Split a character list at the first occurrence of c. -/
def breakOnChar (c : Char) : List Char → Option (List Char × List Char)
  | [] => none
  | a :: as =>
    if a = c then some ([], as)
    else (breakOnChar c as).map (fun pr => (a :: pr.1, pr.2))

/-- Split a character list at the last occurrence of c. -/
def breakOnLast (c : Char) (l : List Char) : Option (List Char × List Char) :=
  (breakOnChar c l.reverse).map (fun pr => (pr.2.reverse, pr.1.reverse))

theorem breakOnChar_eq (c : Char) :
    ∀ (pre post : List Char), c ∉ pre →
      breakOnChar c (pre ++ c :: post) = some (pre, post) := by
  intro pre
  induction pre with
  | nil => intro post h; simp [breakOnChar]
  | cons a as ih =>
    intro post h
    have ha : a ≠ c := fun heq => h (heq ▸ List.mem_cons_self a as)
    simp only [List.cons_append, breakOnChar, if_neg ha, List.append_eq]
    rw [ih post (fun hmem => h (List.mem_cons_of_mem _ hmem))]
    rfl

theorem breakOnLast_eq (c : Char) (pre post : List Char) (h : c ∉ post) :
    breakOnLast c (pre ++ c :: post) = some (pre, post) := by
  unfold breakOnLast
  have hrev : (pre ++ c :: post).reverse = post.reverse ++ c :: pre.reverse := by
    simp [List.reverse_append, List.reverse_cons, List.append_assoc]
  rw [hrev, breakOnChar_eq c _ _ (by simpa using h)]
  simp

/-- The parts encoded in a node identifier (build.NodeIDParts). -/
structure NodeIDParts where
  type : RepositoryType
  owner : String := ""
  repo : String := ""
  path : String := ""
  ref : String := ""
deriving DecidableEq, Repr

/-- Modelled from the spec: ParseNodeID of the build package is absent
from the sources (only its callers are present), so it is built from the
wire-format sentence of the spec: split first on the colon to obtain the
kind, split last on the at-sign to obtain the ref, and for a non-error,
non-local kind split the middle on the first two slashes to recover owner
and repo, the rest being the path; a local id carries the path directly. -/
def ParseNodeID (s : String) : Option NodeIDParts :=
  match breakOnChar ':' s.data with
  | none => none
  | some (kindChars, rest) =>
    let kind : String := ⟨kindChars⟩
    match breakOnLast '@' rest with
    | none => none
    | some (middle, refChars) =>
      let ref : String := ⟨refChars⟩
      if kind = "local" then
        some { type := RepositoryType.localRepo, path := ⟨middle⟩, ref := ref }
      else if kind = "github" ∨ kind = "gitlab" then
        match breakOnChar '/' middle with
        | none => none
        | some (ownerChars, rest2) =>
          match breakOnChar '/' rest2 with
          | none => none
          | some (repoChars, pathChars) =>
            some { type := if kind = "github" then RepositoryType.github
                           else RepositoryType.gitlab,
                   owner := ⟨ownerChars⟩, repo := ⟨repoChars⟩,
                   path := ⟨pathChars⟩, ref := ref }
      else none

@[simp]
theorem strDataAppend (a b : String) : (a ++ b).data = a.data ++ b.data := rfl

theorem strMkData (s : String) : (⟨s.data⟩ : String) = s := rfl

example : ParseNodeID "github:o/r/deploy/over@main"
    = some { type := RepositoryType.github, owner := "o", repo := "r",
             path := "deploy/over", ref := "main" } := by decide

example : ParseNodeID "local:some/dir@main"
    = some { type := RepositoryType.localRepo, path := "some/dir", ref := "main" } := by decide

/-- C5: the node-ID round-trip.  For github and gitlab repos whose owner
and repo contain no slash and whose ref contains no at-sign, and for
local repos whose ref contains no at-sign, parsing the formatted node id
recovers exactly the original parts. -/
theorem claimC5 :
    (∀ (ri : RepositoryInfo) (nodePath : String),
        ri.type = RepositoryType.github ∨ ri.type = RepositoryType.gitlab →
        ('/' : Char) ∉ ri.owner.data → ('/' : Char) ∉ ri.repo.data →
        ('@' : Char) ∉ ri.ref.data →
        ParseNodeID (buildNodeID ri nodePath)
          = some { type := ri.type, owner := ri.owner, repo := ri.repo,
                   path := nodePath, ref := ri.ref }) ∧
    (∀ (ri : RepositoryInfo) (nodePath : String),
        ri.type = RepositoryType.localRepo → ('@' : Char) ∉ ri.ref.data →
        ParseNodeID (buildNodeID ri nodePath)
          = some { type := RepositoryType.localRepo, path := nodePath, ref := ri.ref }) := by
  constructor
  · intro ri nodePath htype howner hrepo href
    obtain ⟨ty, ow, rp, rf, bu, pa, ro⟩ := ri
    dsimp only at htype howner hrepo href
    have hmid : ow.data ++ '/' :: (rp.data ++ '/' :: (nodePath.data ++ '@' :: rf.data))
        = (ow.data ++ '/' :: (rp.data ++ '/' :: nodePath.data)) ++ '@' :: rf.data := by
      simp [List.append_assoc]
    rcases htype with h | h <;> subst h
    · have hdata : (buildNodeID
            { type := RepositoryType.github, owner := ow, repo := rp, ref := rf,
              baseURL := bu, path := pa, rootPath := ro } nodePath).data
          = "github".data ++ ':' ::
              (ow.data ++ '/' :: (rp.data ++ '/' :: (nodePath.data ++ '@' :: rf.data))) := by
        simp [buildNodeID, RepositoryType.str, List.append_assoc]
      unfold ParseNodeID
      rw [hdata, breakOnChar_eq ':' _ _ (by decide)]
      dsimp only
      rw [hmid, breakOnLast_eq '@' _ _ href]
      dsimp only
      rw [if_neg (by decide), if_pos (Or.inl (by decide))]
      rw [breakOnChar_eq '/' _ _ howner]
      dsimp only
      rw [breakOnChar_eq '/' _ _ hrepo]
      dsimp only
      rw [if_pos (by decide)]
    · have hdata : (buildNodeID
            { type := RepositoryType.gitlab, owner := ow, repo := rp, ref := rf,
              baseURL := bu, path := pa, rootPath := ro } nodePath).data
          = "gitlab".data ++ ':' ::
              (ow.data ++ '/' :: (rp.data ++ '/' :: (nodePath.data ++ '@' :: rf.data))) := by
        simp [buildNodeID, RepositoryType.str, List.append_assoc]
      unfold ParseNodeID
      rw [hdata, breakOnChar_eq ':' _ _ (by decide)]
      dsimp only
      rw [hmid, breakOnLast_eq '@' _ _ href]
      dsimp only
      rw [if_neg (by decide), if_pos (Or.inr (by decide))]
      rw [breakOnChar_eq '/' _ _ howner]
      dsimp only
      rw [breakOnChar_eq '/' _ _ hrepo]
      dsimp only
      rw [if_neg (by decide)]
  · intro ri nodePath htype href
    obtain ⟨ty, ow, rp, rf, bu, pa, ro⟩ := ri
    dsimp only at htype href
    subst htype
    have hdata : (buildNodeID
          { type := RepositoryType.localRepo, owner := ow, repo := rp, ref := rf,
            baseURL := bu, path := pa, rootPath := ro } nodePath).data
        = "local".data ++ ':' :: (nodePath.data ++ '@' :: rf.data) := by
      simp [buildNodeID, List.append_assoc]
    unfold ParseNodeID
    rw [hdata, breakOnChar_eq ':' _ _ (by decide)]
    dsimp only
    rw [breakOnLast_eq '@' _ _ href]
    dsimp only
    rw [if_pos (by decide)]

/-- Witness for C5 at concrete parts. -/
theorem claimC5_witness :
    ParseNodeID (buildNodeID scRepo "deploy/over")
      = some { type := RepositoryType.github, owner := "o", repo := "r",
               path := "deploy/over", ref := "main" } ∧
    ParseNodeID (buildNodeID { type := RepositoryType.localRepo, ref := "main" } "some/dir")
      = some { type := RepositoryType.localRepo, path := "some/dir", ref := "main" } := by
  constructor
  · exact claimC5.1 scRepo "deploy/over" (Or.inl rfl) (by decide) (by decide) (by decide)
  · exact claimC5.2 { type := RepositoryType.localRepo, ref := "main" } "some/dir" rfl (by decide)

/-! ## ValidateLocalPath (src/internal/validation/localpath.go)

The filesystem is an oracle: the working directory, os.UserHomeDir,
filepath.EvalSymlinks and os.Stat.  filepath.Abs is computed from the
working directory. -/

/-- The filesystem oracle for local-path validation. -/
structure LocalFS where
  cwd : String
  userHomeDir : Except String String
  evalSymlinks : String → Except String String
  stat : String → Option Bool

/-- MaxAnalyzeURLLength. -/
def MaxAnalyzeURLLength : Nat := 4096

/-- Character-level drop, modelling the Go slice raw[1:]. -/
def strDrop (s : String) (n : Nat) : String := ⟨s.data.drop n⟩

/-- filepath.Abs: clean when already absolute, else resolve against the
working directory. -/
def goAbs (cwd p : String) : String :=
  if strStartsWith p "/" then pathClean p else pathJoin cwd p

/-- EvalSymlinks with the fallback the code uses when resolution fails
(the path might not exist yet). -/
def resolveWithFallback (fs : LocalFS) (p : String) : String :=
  match fs.evalSymlinks p with
  | Except.ok r => r
  | Except.error _ => p

/-- The three accepted input forms of ValidateLocalPath: file://, tilde,
or absolute; anything else is rejected. -/
def expandLocalRaw (fs : LocalFS) (raw : String) : Except String String :=
  if strStartsWith raw "file://" then
    Except.ok (trimLeading "/" (trimLeading "file://" raw))
  else if strStartsWith raw "~/" ∨ raw = "~" then
    match fs.userHomeDir with
    | Except.error e => Except.error ("cannot determine home directory: " ++ e)
    | Except.ok home =>
      if raw = "~" then Except.ok home
      else Except.ok (filepathJoin home (trimLeading "/" (strDrop raw 1)))
  else if strStartsWith raw "/" then Except.ok raw
  else Except.error "path must be absolute or start with ~/"

/-- The canonical home computed by ValidateLocalPath. -/
def homeResolvedOf (fs : LocalFS) (home : String) : String :=
  resolveWithFallback fs (goAbs fs.cwd home)

/-- ValidateLocalPath: expand the accepted form, make it absolute, resolve
symlinks, require the result to be the canonical home or under it, and
require an existing directory; return the cleaned resolved path. -/
def validateLocalPath (fs : LocalFS) (raw0 : String) : Except String String :=
  let raw := trimSpace raw0
  if raw = "" then Except.error "path is required"
  else if raw.length > MaxAnalyzeURLLength then
    Except.error "path exceeds maximum length"
  else
    match expandLocalRaw fs raw with
    | Except.error e => Except.error e
    | Except.ok path =>
      let absPath := goAbs fs.cwd path
      let resolved := resolveWithFallback fs absPath
      match fs.userHomeDir with
      | Except.error e => Except.error ("cannot determine home directory: " ++ e)
      | Except.ok home =>
        let homeResolved := homeResolvedOf fs home
        let homePre := pathClean homeResolved ++ "/"
        let resolvedClean := pathClean resolved
        if resolvedClean ≠ homeResolved ∧ ¬ strStartsWith resolvedClean homePre then
          Except.error ("path must be under HOME")
        else
          match fs.stat resolved with
          | none => Except.error ("path does not exist or cannot be accessed: " ++ resolved)
          | some isDir =>
            if ¬ isDir then Except.error ("path is not a directory: " ++ resolved)
            else Except.ok resolvedClean

/-- A filesystem whose home directory /home/u exists, with no symlinks. -/
def fsHome : LocalFS :=
  { cwd := "/", userHomeDir := Except.ok "/home/u",
    evalSymlinks := fun s => Except.ok s,
    stat := fun s => if s = "/home/u" then some true else none }

/-- C6 counterexample: the input "~" is accepted and returns the canonical
home itself, which does not lie strictly under the canonical home, so the
claim that validation succeeds only for targets strictly under the
canonical home is false at this concrete input. -/
theorem claimC6_counter :
    validateLocalPath fsHome "~" = Except.ok "/home/u" ∧
    strStartsWith "/home/u" ("/home/u" ++ "/") = false := by
  refine ⟨rfl, by decide⟩

/-- C6 amended: whenever ValidateLocalPath succeeds, the trimmed input had
one of the forms file://, ~, ~/..., or absolute; the symlink-resolved
target is the canonical home itself or lies under it; the target exists
and is a directory; and the returned value is the cleaned resolved path. -/
theorem claimC6 (fs : LocalFS) (raw p : String)
    (h : validateLocalPath fs raw = Except.ok p) :
    (strStartsWith (trimSpace raw) "file://" ∨ trimSpace raw = "~" ∨
      strStartsWith (trimSpace raw) "~/" ∨ strStartsWith (trimSpace raw) "/") ∧
    ∃ path home, expandLocalRaw fs (trimSpace raw) = Except.ok path ∧
      fs.userHomeDir = Except.ok home ∧
      (pathClean (resolveWithFallback fs (goAbs fs.cwd path)) = homeResolvedOf fs home ∨
        strStartsWith (pathClean (resolveWithFallback fs (goAbs fs.cwd path)))
          (pathClean (homeResolvedOf fs home) ++ "/")) ∧
      fs.stat (resolveWithFallback fs (goAbs fs.cwd path)) = some true ∧
      p = pathClean (resolveWithFallback fs (goAbs fs.cwd path)) := by
  have hform : ∀ r path2, expandLocalRaw fs r = Except.ok path2 →
      (strStartsWith r "file://" ∨ r = "~" ∨ strStartsWith r "~/" ∨ strStartsWith r "/") := by
    intro r path2 hexp
    unfold expandLocalRaw at hexp
    by_cases h1 : strStartsWith r "file://"
    · exact Or.inl h1
    · rw [if_neg h1] at hexp
      by_cases h2 : strStartsWith r "~/" ∨ r = "~"
      · rcases h2 with h2 | h2
        · exact Or.inr (Or.inr (Or.inl h2))
        · exact Or.inr (Or.inl h2)
      · rw [if_neg h2] at hexp
        by_cases h3 : strStartsWith r "/"
        · exact Or.inr (Or.inr (Or.inr h3))
        · rw [if_neg h3] at hexp
          cases hexp
  unfold validateLocalPath at h
  dsimp only at h
  by_cases h0 : trimSpace raw = ""
  · rw [if_pos h0] at h
    cases h
  · rw [if_neg h0] at h
    by_cases h1 : (trimSpace raw).length > MaxAnalyzeURLLength
    · rw [if_pos h1] at h
      cases h
    · rw [if_neg h1] at h
      cases hexp : expandLocalRaw fs (trimSpace raw) with
      | error e =>
        rw [hexp] at h
        cases h
      | ok path2 =>
        rw [hexp] at h
        dsimp only at h
        cases hhome : fs.userHomeDir with
        | error e =>
          rw [hhome] at h
          cases h
        | ok home =>
          rw [hhome] at h
          dsimp only at h
          refine ⟨hform _ _ hexp, path2, home, rfl, rfl, ?_⟩
          split at h
          · cases h
          · rename_i hunder
            split at h
            · cases h
            · rename_i isDir hstat
              split at h
              · cases h
              · rename_i hdir
                cases h
                refine ⟨?_, ?_, rfl⟩
                · rcases not_and_or.mp hunder with hh | hh
                  · exact Or.inl (not_not.mp hh)
                  · exact Or.inr (not_not.mp hh)
                · have hb : isDir = true := by
                    by_cases hb2 : isDir = true
                    · exact hb2
                    · exact absurd (by simpa using hb2) hdir
                  rw [hb] at hstat
                  exact hstat

/-- Witness for C6: the amended theorem applied at the concrete
filesystem accepting "~". -/
theorem claimC6_witness :
    (strStartsWith (trimSpace "~") "file://" ∨ trimSpace "~" = "~" ∨
      strStartsWith (trimSpace "~") "~/" ∨ strStartsWith (trimSpace "~") "/") ∧
    ∃ path home, expandLocalRaw fsHome (trimSpace "~") = Except.ok path ∧
      fsHome.userHomeDir = Except.ok home ∧
      (pathClean (resolveWithFallback fsHome (goAbs fsHome.cwd path))
          = homeResolvedOf fsHome home ∨
        strStartsWith (pathClean (resolveWithFallback fsHome (goAbs fsHome.cwd path)))
          (pathClean (homeResolvedOf fsHome home) ++ "/")) ∧
      fsHome.stat (resolveWithFallback fsHome (goAbs fsHome.cwd path)) = some true ∧
      "/home/u" = pathClean (resolveWithFallback fsHome (goAbs fsHome.cwd path)) :=
  claimC6 fsHome "~" "/home/u" rfl

/-! ## ValidateAnalyzeURL and host rejection (server.go validation section)

IPs are byte lists as in the Go net package (4 bytes, or 16 with the
v4-in-v6 mapped form).  IPv4 parsing and the classification predicates
are implemented from the net package; IPv6 literal parsing and URL
parsing are oracles. -/

/-- The v4-in-v6 mapped form front that net.ParseIP gives IPv4 addresses. -/
def v4InV6Front : List Nat := [0, 0, 0, 0, 0, 0, 0, 0, 0, 0, 0xff, 0xff]

/-- One dotted-decimal field: nonempty, at most three digits, no leading
zero, value at most 255. -/
def parseV4Field (s : String) : Option Nat :=
  if s.data = [] then none
  else if ¬ s.data.all (fun c => c.isDigit) then none
  else if s.data.length > 1 ∧ s.data.headD '0' = '0' then none
  else if s.data.length > 3 then none
  else
    let v := s.data.foldl (fun acc c => acc * 10 + (c.toNat - 48)) 0
    if v ≤ 255 then some v else none

/-- net.ParseIP on dotted-decimal IPv4 input. -/
def parseIPv4 (s : String) : Option (List Nat) :=
  match splitOnChar '.' s with
  | [f1, f2, f3, f4] =>
    match parseV4Field f1, parseV4Field f2, parseV4Field f3, parseV4Field f4 with
    | some a, some b, some c, some d => some (v4InV6Front ++ [a, b, c, d])
    | _, _, _, _ => none
  | _ => none

/-- net.ParseIP: the first dot or colon decides between the IPv4 parser
and the IPv6 parser (the latter an oracle); neither present means not an
IP. -/
def parseIP (v6parse : String → Option (List Nat)) (s : String) : Option (List Nat) :=
  match s.data.find? (fun c => c = '.' ∨ c = ':') with
  | none => none
  | some c => if c = '.' then parseIPv4 s else v6parse s

/-- net.IP.To4. -/
def to4 (ip : List Nat) : Option (List Nat) :=
  match ip with
  | [a, b, c, d] => some [a, b, c, d]
  | [0, 0, 0, 0, 0, 0, 0, 0, 0, 0, 0xff, 0xff, a, b, c, d] => some [a, b, c, d]
  | _ => none

/-- net.IPv6loopback. -/
def ipv6Loopback : List Nat := [0, 0, 0, 0, 0, 0, 0, 0, 0, 0, 0, 0, 0, 0, 0, 1]

/-- net.IP.IsLoopback. -/
def isLoopback (ip : List Nat) : Bool :=
  match to4 ip with
  | some l => l.headD 0 = 127
  | none => ip = ipv6Loopback

/-- net.IP.IsPrivate (RFC1918 for IPv4, fc00::/7 ULA for IPv6). -/
def isPrivate (ip : List Nat) : Bool :=
  match to4 ip with
  | some [a, b, _, _] => a = 10 ∨ (a = 172 ∧ b &&& 0xf0 = 16) ∨ (a = 192 ∧ b = 168)
  | some _ => false
  | none => ip.length = 16 ∧ ip.headD 0 &&& 0xfe = 0xfc

/-- net.IP.IsLinkLocalUnicast. -/
def isLinkLocalUnicast (ip : List Nat) : Bool :=
  match to4 ip with
  | some [a, b, _, _] => a = 169 ∧ b = 254
  | some _ => false
  | none => ip.length = 16 ∧ ip.headD 0 = 0xfe ∧ (ip.getD 1 0) &&& 0xc0 = 0x80

/-- net.IP.IsLinkLocalMulticast. -/
def isLinkLocalMulticast (ip : List Nat) : Bool :=
  match to4 ip with
  | some [a, b, c, _] => a = 224 ∧ b = 0 ∧ c = 0
  | some _ => false
  | none => ip.length = 16 ∧ ip.headD 0 = 0xff ∧ (ip.getD 1 0) &&& 0x0f = 0x02

example : parseIPv4 "192.168.0.1" = some (v4InV6Front ++ [192, 168, 0, 1]) := by decide
example : parseIPv4 "192.168.01.1" = none := by decide
example : isPrivate (v4InV6Front ++ [172, 31, 0, 1]) = true := by decide
example : isPrivate (v4InV6Front ++ [172, 32, 0, 1]) = false := by decide
example : isLoopback (v4InV6Front ++ [127, 0, 0, 1]) = true := by decide

/-- What url.ParseRequestURI exposes of a URL to the validator: the
scheme, and u.Hostname() (host with brackets and port stripped). -/
structure GoURL where
  scheme : String
  hostname : String
deriving DecidableEq, Repr

/-- Oracles for URL parsing and IPv6 literal parsing. -/
structure URLEnv where
  parseRequestURI : String → Option GoURL
  parseIPv6 : String → Option (List Nat)

/-- strings.Index for a single character: index of first occurrence. -/
def indexOfChar (c : Char) (s : String) : Option Nat :=
  s.data.findIdx? (fun a => a = c)

/-- rejectPrivateOrReservedHost: strip everything from the first colon on
(port stripping), then reject private or reserved IPs and internal
hostnames; some message means rejection. -/
def rejectPrivateOrReservedHost (env : URLEnv) (host0 : String) : Option String :=
  let host := match indexOfChar ':' host0 with
    | some idx => if idx > 0 then strTake host0 idx else host0
    | none => host0
  match parseIP env.parseIPv6 host with
  | some ip =>
    if isLoopback ip ∨ isPrivate ip ∨ isLinkLocalUnicast ip ∨ isLinkLocalMulticast ip then
      some "URL host must not be a private or loopback address"
    else none
  | none =>
    let lower := strToLower host
    if lower = "localhost" ∨ strEndsWith lower ".localhost" ∨
        strEndsWith lower ".local" ∨ lower = "internal" then
      some "URL host must not be a private or loopback hostname"
    else none

/-- ValidateHost (used before outbound TLS probes). -/
def validateHost (env : URLEnv) (host : String) : Option String :=
  let h := strToLower (trimSpace host)
  if h = "" then some "host is required"
  else
    let h2 := match indexOfChar ':' h with
      | some idx => if idx > 0 then strTake h idx else h
      | none => h
    rejectPrivateOrReservedHost env h2

/-- The allowed-schemes map: only https maps to true. -/
def allowedScheme (s : String) : Bool := s = "https"

/-- ValidateAnalyzeURL; some message means rejection, none acceptance. -/
def validateAnalyzeURL (env : URLEnv) (rawURL : String) : Option String :=
  if rawURL = "" then some "URL is required"
  else if rawURL.length > MaxAnalyzeURLLength then some "URL exceeds maximum length"
  else
    match env.parseRequestURI rawURL with
    | none => some "invalid URL"
    | some u =>
      if ¬ allowedScheme u.scheme then some "URL scheme must be https"
      else
        let host := strToLower (trimSpace u.hostname)
        if host = "" then some "invalid URL: missing host"
        else rejectPrivateOrReservedHost env host

/-- C7: the claim that every URL with a private (RFC1918/ULA) or
link-local host is rejected fails on the code: the port-strip in
rejectPrivateOrReservedHost truncates an IPv6 hostname such as fd00::1 at
its first colon, the truncated string "fd00" is not a parsable IP, the
internal-hostname checks do not match it, and the URL is accepted, even
though fd00::1 is a private (unique-local) address by the classification
of the code itself.  The hypothesis pins the URL-parse oracle to what the
Go net/url package returns for this URL. -/
theorem claimC7 (env : URLEnv)
    (h : env.parseRequestURI "https://[fd00::1]/"
          = some { scheme := "https", hostname := "fd00::1" }) :
    validateAnalyzeURL env "https://[fd00::1]/" = none ∧
    isPrivate [0xfd, 0, 0, 0, 0, 0, 0, 0, 0, 0, 0, 0, 0, 0, 0, 1] = true := by
  constructor
  · unfold validateAnalyzeURL
    rw [if_neg (by decide), if_neg (by decide), h]
    rfl
  · decide

/-- A URL-parse oracle matching the Go net/url package on the failing input. -/
def urlEnvULA : URLEnv :=
  { parseRequestURI := fun s =>
      if s = "https://[fd00::1]/" then some { scheme := "https", hostname := "fd00::1" }
      else none,
    parseIPv6 := fun _ => none }

/-- Witness for C7 at the concrete oracle. -/
theorem claimC7_witness :
    validateAnalyzeURL urlEnvULA "https://[fd00::1]/" = none ∧
    isPrivate [0xfd, 0, 0, 0, 0, 0, 0, 0, 0, 0, 0, 0, 0, 0, 0, 1] = true :=
  claimC7 urlEnvULA rfl

/-! ## FindKustomizationInPath across the three fetchers
(part_014 GitHub, internal/fetcher/gitlab.go, part_015 local)

The provider APIs and the disk are oracles: fetchFile returns the file
content when the provider finds the exact path, listTree lists a
directory, stat and readFile read the local disk. -/

/-- The kustomization file names tried in order. -/
def kustomizationFiles : List String :=
  ["kustomization.yaml", "kustomization.yml", "Kustomization"]

/-- The name loop of the GitHub fetcher. -/
def tryNamesGitHub (fetchFile : String → Option String) (path : String) :
    List String → Except String String
  | [] => Except.error ("no kustomization file found in path: " ++ path)
  | name :: rest =>
    let fullPath := if path = "" then name else path ++ "/" ++ name
    match fetchFile fullPath with
    | some c => Except.ok c
    | none => tryNamesGitHub fetchFile path rest

/-- GitHubFetcher.FindKustomizationInPath: try the trimmed path as-is,
then the three file names under it. -/
def githubFindKustomizationInPath (fetchFile : String → Option String) (path0 : String) :
    Except String String :=
  let path := trimChar '/' path0
  match fetchFile path with
  | some c => Except.ok c
  | none => tryNamesGitHub fetchFile path kustomizationFiles

/-- A GitLab tree entry. -/
structure TreeNode where
  name : String := ""
  path : String := ""
  type : String := ""
deriving DecidableEq, Repr

/-- isKustomizationFileName: case-insensitive membership in the known
kustomization file names. -/
def isKustomizationFileName (name : String) : Bool :=
  strToLower name = "kustomization.yaml" ∨ strToLower name = "kustomization.yml" ∨
    strToLower name = "kustomization"

/-- Last slash-separated segment of a path. -/
def lastSegment (p : String) : String :=
  match (splitOnChar '/' p).getLast? with
  | some s => s
  | none => ""

/-- The effective name of a tree node (fall back to the last path
segment when the name is empty). -/
def nodeName (node : TreeNode) : String :=
  if node.name = "" ∧ node.path ≠ "" then lastSegment node.path else node.name

/-- The path fetched for a matching tree node. -/
def nodeFilePath (path : String) (node : TreeNode) : String :=
  if node.path = "" then
    (if path ≠ "" then path ++ "/" ++ nodeName node else nodeName node)
  else node.path

/-- Whether the scan considers a node: a blob with a kustomization name. -/
def nodeMatchesB (node : TreeNode) : Bool :=
  node.type = "blob" ∧ isKustomizationFileName (nodeName node)

/-- The listing loop of the GitLab fetcher. -/
def gitlabScan (fetchFile : String → Option String) (path : String) :
    List TreeNode → Except String String
  | [] => Except.error ("no kustomization file found in path: " ++ path)
  | node :: rest =>
    if node.type ≠ "blob" then gitlabScan fetchFile path rest
    else if ¬ isKustomizationFileName (nodeName node) then gitlabScan fetchFile path rest
    else
      match fetchFile (nodeFilePath path node) with
      | some c => Except.ok c
      | none => gitlabScan fetchFile path rest

/-- GitLabFetcher.FindKustomizationInPath: try the trimmed path as-is,
then scan the directory listing for a kustomization-named blob. -/
def gitlabFindKustomizationInPath (fetchFile : String → Option String)
    (listTree : String → Option (List TreeNode)) (path0 : String) : Except String String :=
  let path := trimChar '/' path0
  match fetchFile path with
  | some c => Except.ok c
  | none =>
    match listTree path with
    | some tree => gitlabScan fetchFile path tree
    | none => Except.error ("no kustomization file found in path: " ++ path)

/-- The local disk oracle: stat yields whether an existing path is a
directory, readFile the content of a readable file. -/
structure LocalDiskFS where
  stat : String → Option Bool
  readFile : String → Option String

/-- LocalFetcher.joinPath: join under the root and refuse escapes. -/
def localJoinPath (rootPath path0 : String) : Except String String :=
  let path := trimChar '/' path0
  let full := pathClean (filepathJoin rootPath path)
  let root := pathClean rootPath
  if full ≠ root ∧ ¬ strStartsWith full (root ++ "/") then
    Except.error ("path escapes repository root: " ++ path)
  else Except.ok full

/-- The name loop of the local fetcher (escaping candidates are skipped,
unreadable ones too). -/
def localTryNames (fs : LocalDiskFS) (rootPath path : String) :
    List String → Except String String
  | [] => Except.error ("no kustomization file found in path: " ++ path)
  | name :: rest =>
    let p := if path = "" then name else path ++ "/" ++ name
    match localJoinPath rootPath p with
    | Except.error _ => localTryNames fs rootPath path rest
    | Except.ok fullp =>
      match fs.readFile fullp with
      | some c => Except.ok c
      | none => localTryNames fs rootPath path rest

/-- LocalFetcher.FindKustomizationInPath: join-check the trimmed path,
read it directly when it is an existing regular file, else try the three
names. -/
def localFindKustomizationInPath (fs : LocalDiskFS) (rootPath path0 : String) :
    Except String String :=
  let path := trimChar '/' path0
  match localJoinPath rootPath path with
  | Except.error e => Except.error e
  | Except.ok full =>
    match fs.stat full with
    | some false =>
      (match fs.readFile full with
       | some c => Except.ok c
       | none => Except.error ("read failure: " ++ full))
    | _ => localTryNames fs rootPath path kustomizationFiles

/-- The candidate list the claim describes: the path as-is, then the
three kustomization file names under it. -/
def claimCandidates (path : String) : List String :=
  path :: kustomizationFiles.map (fun name => if path = "" then name else path ++ "/" ++ name)

/-- The content of the first candidate an oracle finds. -/
def firstFetched (fetchFile : String → Option String) : List String → Option String
  | [] => none
  | c :: cs =>
    match fetchFile c with
    | some content => some content
    | none => firstFetched fetchFile cs

/-- The name loop of the GitHub fetcher is the first-found semantics over
the suffixed candidates. -/
theorem tryNamesGitHub_eq (fetchFile : String → Option String) (path : String) :
    ∀ names : List String,
      tryNamesGitHub fetchFile path names
        = match firstFetched fetchFile
            (names.map (fun name => if path = "" then name else path ++ "/" ++ name)) with
          | some c => Except.ok c
          | none => Except.error ("no kustomization file found in path: " ++ path) := by
  intro names
  induction names with
  | nil => rfl
  | cons name rest ih =>
    simp only [tryNamesGitHub, List.map_cons, firstFetched]
    cases fetchFile (if path = "" then name else path ++ "/" ++ name) with
    | none => simpa using ih
    | some c => rfl

/-- The GitLab listing loop returns the first kustomization-named blob of
the listing, in listing order, whose content fetches. -/
theorem gitlabScan_eq (fetchFile : String → Option String) (path : String) :
    ∀ tree : List TreeNode,
      gitlabScan fetchFile path tree
        = match tree.findSome? (fun node =>
              if nodeMatchesB node then fetchFile (nodeFilePath path node) else none) with
          | some c => Except.ok c
          | none => Except.error ("no kustomization file found in path: " ++ path) := by
  intro tree
  induction tree with
  | nil => rfl
  | cons node rest ih =>
    simp only [gitlabScan, List.findSome?]
    by_cases hblob : node.type = "blob"
    · by_cases hname : isKustomizationFileName (nodeName node) = true
      · have hm : nodeMatchesB node = true := by
          simp [nodeMatchesB, hblob, hname]
        rw [if_neg (by simp [hblob]), if_neg (by simp [hname]), hm]
        cases hf : fetchFile (nodeFilePath path node) with
        | some c => simp
        | none => simpa using ih
      · have hm : nodeMatchesB node = false := by
          simp [nodeMatchesB, hname]
        rw [if_neg (by simp [hblob]), if_pos (by simpa using hname), hm]
        simpa using ih
    · have hm : nodeMatchesB node = false := by
        simp [nodeMatchesB, hblob]
      rw [if_pos (by simpa using hblob), hm]
      simpa using ih

/-- Per-candidate read of the local fetcher name loop. -/
def localCandidateRead (fs : LocalDiskFS) (rootPath path name : String) : Option String :=
  let p := if path = "" then name else path ++ "/" ++ name
  match localJoinPath rootPath p with
  | Except.error _ => none
  | Except.ok fullp => fs.readFile fullp

/-- The local name loop is the first-found semantics over the candidate
reads. -/
theorem localTryNames_eq (fs : LocalDiskFS) (rootPath path : String) :
    ∀ names : List String,
      localTryNames fs rootPath path names
        = match names.findSome? (localCandidateRead fs rootPath path) with
          | some c => Except.ok c
          | none => Except.error ("no kustomization file found in path: " ++ path) := by
  intro names
  induction names with
  | nil => rfl
  | cons name rest ih =>
    simp only [localTryNames, List.findSome?, localCandidateRead]
    cases hj : localJoinPath rootPath (if path = "" then name else path ++ "/" ++ name) with
    | error e => simpa using ih
    | ok fullp =>
      cases hr : fs.readFile fullp <;> simp [hr, ih]

/-- The GitLab counterexample environment: the directory listing of "d"
has a Kustomization blob first and a kustomization.yaml blob second, with
different contents. -/
def glFetch : String → Option String := fun p =>
  if p = "d/Kustomization" then some "K"
  else if p = "d/kustomization.yaml" then some "Y"
  else none

/-- The listing of directory "d". -/
def glTree : List TreeNode :=
  [ { name := "Kustomization", path := "d/Kustomization", type := "blob" },
    { name := "kustomization.yaml", path := "d/kustomization.yaml", type := "blob" } ]

/-- The listing oracle of the counterexample. -/
def glListTree : String → Option (List TreeNode) := fun p =>
  if p = "d" then some glTree else none

/-- C8 counterexample: the GitLab fetcher returns the content of the
first kustomization-named blob in directory-listing order, not the
content of the first candidate of the claimed fixed order
(path, path/kustomization.yaml, path/kustomization.yml,
path/Kustomization): here the claimed order picks kustomization.yaml
("Y") while the code returns the Kustomization content ("K"). -/
theorem claimC8_counter :
    gitlabFindKustomizationInPath glFetch glListTree "d" = Except.ok "K" ∧
    firstFetched glFetch (claimCandidates "d") = some "Y" ∧
    ("K" : String) ≠ "Y" := by
  refine ⟨rfl, rfl, by decide⟩

/-- C8 amended: the GitHub fetcher returns the first-found content over
the candidates path, path/kustomization.yaml, path/kustomization.yml,
path/Kustomization (exact names) and errs exactly when none is found; the
GitLab fetcher tries the trimmed path as-is and otherwise returns the
first kustomization-named blob of the directory listing, in listing
order, whose content fetches, erring when there is none; the local
fetcher errs on a root-escaping path, returns an existing regular file at
the path directly, and otherwise tries the three names in order, skipping
escaping or unreadable candidates. -/
theorem claimC8 :
    (∀ (fetchFile : String → Option String) (p : String),
        githubFindKustomizationInPath fetchFile p
          = match firstFetched fetchFile (claimCandidates (trimChar '/' p)) with
            | some c => Except.ok c
            | none => Except.error
                ("no kustomization file found in path: " ++ trimChar '/' p)) ∧
    (∀ (fetchFile : String → Option String) (listTree : String → Option (List TreeNode))
        (p : String) (tree : List TreeNode),
        fetchFile (trimChar '/' p) = none →
        listTree (trimChar '/' p) = some tree →
        gitlabFindKustomizationInPath fetchFile listTree p
          = match tree.findSome? (fun node =>
                if nodeMatchesB node then fetchFile (nodeFilePath (trimChar '/' p) node)
                else none) with
            | some c => Except.ok c
            | none => Except.error
                ("no kustomization file found in path: " ++ trimChar '/' p)) ∧
    (∀ (fs : LocalDiskFS) (rootPath p e : String),
        localJoinPath rootPath (trimChar '/' p) = Except.error e →
        localFindKustomizationInPath fs rootPath p = Except.error e) ∧
    (∀ (fs : LocalDiskFS) (rootPath p full c : String),
        localJoinPath rootPath (trimChar '/' p) = Except.ok full →
        fs.stat full = some false → fs.readFile full = some c →
        localFindKustomizationInPath fs rootPath p = Except.ok c) ∧
    (∀ (fs : LocalDiskFS) (rootPath p full : String),
        localJoinPath rootPath (trimChar '/' p) = Except.ok full →
        fs.stat full ≠ some false →
        localFindKustomizationInPath fs rootPath p
          = match kustomizationFiles.findSome?
                (localCandidateRead fs rootPath (trimChar '/' p)) with
            | some c => Except.ok c
            | none => Except.error
                ("no kustomization file found in path: " ++ trimChar '/' p)) := by
  refine ⟨?_, ?_, ?_, ?_, ?_⟩
  · intro fetchFile p
    unfold githubFindKustomizationInPath claimCandidates
    simp only [firstFetched]
    cases hf : fetchFile (trimChar '/' p) with
    | some c => rfl
    | none => simpa using tryNamesGitHub_eq fetchFile (trimChar '/' p) kustomizationFiles
  · intro fetchFile listTree p tree hf hl
    unfold gitlabFindKustomizationInPath
    dsimp only
    rw [hf, hl]
    exact gitlabScan_eq fetchFile (trimChar '/' p) tree
  · intro fs rootPath p e hj
    unfold localFindKustomizationInPath
    dsimp only
    rw [hj]
  · intro fs rootPath p full c hj hstat hread
    unfold localFindKustomizationInPath
    dsimp only
    rw [hj]
    dsimp only
    rw [hstat]
    dsimp only
    rw [hread]
  · intro fs rootPath p full hj hstat
    unfold localFindKustomizationInPath
    dsimp only
    rw [hj]
    dsimp only
    have heq := localTryNames_eq fs rootPath (trimChar '/' p) kustomizationFiles
    cases hs : fs.stat full with
    | none => simpa using heq
    | some isDir =>
      cases isDir with
      | false => exact absurd hs hstat
      | true => simpa using heq

/-- Witness for C8 at the counterexample environment and a concrete local
filesystem. -/
theorem claimC8_witness :
    (githubFindKustomizationInPath glFetch "d"
      = match firstFetched glFetch (claimCandidates (trimChar '/' "d")) with
        | some c => Except.ok c
        | none => Except.error ("no kustomization file found in path: " ++ trimChar '/' "d")) ∧
    (gitlabFindKustomizationInPath glFetch glListTree "d"
      = match glTree.findSome? (fun node =>
            if nodeMatchesB node then glFetch (nodeFilePath (trimChar '/' "d") node)
            else none) with
        | some c => Except.ok c
        | none => Except.error ("no kustomization file found in path: " ++ trimChar '/' "d")) := by
  constructor
  · exact claimC8.1 glFetch "d"
  · exact claimC8.2.1 glFetch glListTree "d" glTree rfl rfl

/-! ## CA bundle collection (src/internal/cacert/cacert.go)

Certificates are their raw DER bytes; SHA-256, PEM encoding and decoding,
TLS dials (through the per-host cache) and URL hostname extraction are
oracles. -/

/-- A certificate, identified by its raw DER bytes. -/
structure Cert where
  raw : List Nat
deriving DecidableEq, Repr

/-- Oracles of the collector. -/
structure CacertEnv where
  urlHostname : String → Option String
  hostPEM : String → Option String
  parsePEMCerts : String → List Cert
  pemEncode : Cert → String
  fingerprint : List Nat → String
  nowPlusTTL : String
  hostValidation : URLEnv

/-- resolveTLSHost: lower-cased trimmed hostname of the base URL, with
github.com rewritten to api.github.com; none on a URL parse error. -/
def resolveTLSHost (env : CacertEnv) (baseURL : String) : Option String :=
  match env.urlHostname baseURL with
  | none => none
  | some h0 =>
    let host := strToLower (trimSpace h0)
    if host = "" then some ""
    else if host = "github.com" then some "api.github.com"
    else some host

/-- Insertion into a sorted string list. -/
def insertSorted (x : String) : List String → List String
  | [] => [x]
  | y :: ys => if x ≤ y then x :: y :: ys else y :: insertSorted x ys

/-- Sorting (Go sort.Strings). -/
def sortStrings (l : List String) : List String := l.foldr insertSorted []

/-- uniqueHostsFromGraph: deduplicated TLS hosts of the base URLs of the
graph, sorted. -/
def uniqueHostsFromGraph (env : CacertEnv) (g : Graph) : List String :=
  let hosts := g.baseURLs.foldl (fun acc kv =>
    if kv.2 = "" then acc
    else match resolveTLSHost env kv.2 with
      | none => acc
      | some host => if host ∈ acc then acc else acc ++ [host]) []
  sortStrings hosts

/-- The inner cert loop: keep certificates whose fingerprint is unseen. -/
def dedupeCerts (env : CacertEnv) : List Cert → List String → List Cert →
    List String × List Cert
  | [], seen, acc => (seen, acc)
  | cert :: rest, seen, acc =>
    if env.fingerprint cert.raw ∈ seen then dedupeCerts env rest seen acc
    else dedupeCerts env rest (env.fingerprint cert.raw :: seen) (acc ++ [cert])

/-- The host loop of CollectAndAttach: per host, validate, obtain the
cached-or-dialed PEM, parse it and dedupe the certificates. -/
def collectLoop (env : CacertEnv) : List String → List String → List Cert → List Cert
  | [], _, acc => acc
  | host :: rest, seen, acc =>
    match validateHost env.hostValidation host with
    | some _ => collectLoop env rest seen acc
    | none =>
      match env.hostPEM host with
      | none => collectLoop env rest seen acc
      | some pemBlock =>
        collectLoop env rest
          (dedupeCerts env (env.parsePEMCerts pemBlock) seen acc).1
          (dedupeCerts env (env.parsePEMCerts pemBlock) seen acc).2

/-- The unique certificates CollectAndAttach gathers for a graph. -/
def collectedCerts (env : CacertEnv) (g : Graph) : List Cert :=
  collectLoop env (uniqueHostsFromGraph env g) [] []

/-- CollectAndAttach: set the PEM bundle and its expiry when any host
yielded certificates; otherwise leave the graph untouched. -/
def collectAndAttach (env : CacertEnv) (g : Graph) : Graph :=
  let hosts := uniqueHostsFromGraph env g
  if hosts = [] then g
  else
    let certs := collectLoop env hosts [] []
    if certs = [] then g
    else { g with caBundle := String.join (certs.map env.pemEncode),
                  caBundleExpires := env.nowPlusTTL }

/-- The inner loop keeps its invariant: accumulated certs have seen
fingerprints, and their fingerprints are pairwise distinct. -/
theorem dedupeCerts_inv (env : CacertEnv) : ∀ (certs : List Cert) (seen : List String)
    (acc : List Cert),
    (∀ c ∈ acc, env.fingerprint c.raw ∈ seen) →
    List.Pairwise (fun a b => env.fingerprint a.raw ≠ env.fingerprint b.raw) acc →
    (∀ c ∈ (dedupeCerts env certs seen acc).2,
      env.fingerprint c.raw ∈ (dedupeCerts env certs seen acc).1) ∧
    List.Pairwise (fun a b => env.fingerprint a.raw ≠ env.fingerprint b.raw)
      (dedupeCerts env certs seen acc).2 := by
  intro certs
  induction certs with
  | nil => intro seen acc h1 h2; exact ⟨h1, h2⟩
  | cons cert rest ih =>
    intro seen acc h1 h2
    by_cases hseen : env.fingerprint cert.raw ∈ seen
    · simp only [dedupeCerts, if_pos hseen]
      exact ih seen acc h1 h2
    · simp only [dedupeCerts, if_neg hseen]
      refine ih _ _ ?_ ?_
      · intro c hc
        rcases List.mem_append.mp hc with hold | hnew
        · exact List.mem_cons_of_mem _ (h1 c hold)
        · rcases List.mem_singleton.mp hnew with rfl
          exact List.mem_cons_self _ _
      · rw [List.pairwise_append]
        refine ⟨h2, List.pairwise_singleton _ _, ?_⟩
        intro a ha b hb
        rcases List.mem_singleton.mp hb with rfl
        intro heq
        exact hseen (heq ▸ h1 a ha)

/-- The host loop preserves pairwise-distinct fingerprints. -/
theorem collectLoop_inv (env : CacertEnv) : ∀ (hosts seen : List String) (acc : List Cert),
    (∀ c ∈ acc, env.fingerprint c.raw ∈ seen) →
    List.Pairwise (fun a b => env.fingerprint a.raw ≠ env.fingerprint b.raw) acc →
    List.Pairwise (fun a b => env.fingerprint a.raw ≠ env.fingerprint b.raw)
      (collectLoop env hosts seen acc) := by
  intro hosts
  induction hosts with
  | nil => intro seen acc h1 h2; exact h2
  | cons host rest ih =>
    intro seen acc h1 h2
    simp only [collectLoop]
    cases validateHost env.hostValidation host with
    | some e => exact ih seen acc h1 h2
    | none =>
      cases env.hostPEM host with
      | none => exact ih seen acc h1 h2
      | some pemBlock =>
        have hd := dedupeCerts_inv env (env.parsePEMCerts pemBlock) seen acc h1 h2
        exact ih _ _ hd.1 hd.2

/-- C9: whenever CollectAndAttach sets the caBundle of a graph, the bundle is
the concatenation of the PEM encodings of the collected certificates,
whose fingerprints (SHA-256 of the raw DER, as an oracle) are pairwise
distinct; hence the certificate list has no duplicates and each
certificate appears in it exactly once, no matter how many hosts' chains
contained it. -/
theorem claimC9 (env : CacertEnv) (g : Graph) :
    List.Pairwise (fun a b => env.fingerprint a.raw ≠ env.fingerprint b.raw)
      (collectedCerts env g) ∧
    (collectedCerts env g).Nodup ∧
    (∀ c ∈ collectedCerts env g, (collectedCerts env g).count c = 1) ∧
    ((collectAndAttach env g).caBundle = g.caBundle ∨
      (collectAndAttach env g).caBundle
        = String.join ((collectedCerts env g).map env.pemEncode)) := by
  have hpw : List.Pairwise (fun a b => env.fingerprint a.raw ≠ env.fingerprint b.raw)
      (collectedCerts env g) :=
    collectLoop_inv env (uniqueHostsFromGraph env g) [] []
      (fun c hc => absurd hc (List.not_mem_nil c)) List.Pairwise.nil
  have hnd : (collectedCerts env g).Nodup := by
    refine hpw.imp ?_
    intro a b hab heq
    exact hab (heq ▸ rfl)
  refine ⟨hpw, hnd, ?_, ?_⟩
  · intro c hc
    exact List.count_eq_one_of_mem hnd hc
  · unfold collectAndAttach
    dsimp only
    split
    · exact Or.inl rfl
    · split
      · exact Or.inl rfl
      · exact Or.inr rfl

/-! ## Bounds of getShortLabel (part_011) -/

theorem strLen_append_dots (x : String) : (x ++ "...").length = x.length + 3 := by
  show (x.data ++ "...".data).length = x.data.length + 3
  rw [List.length_append]
  rfl

theorem strTake_length (s : String) (n : Nat) : (strTake s n).length = min n s.length := by
  show (s.data.take n).length = min n s.data.length
  exact List.length_take n s.data

theorem strTake_mem (s : String) (n : Nat) (c : Char) (h : c ∈ (strTake s n).data) :
    c ∈ s.data :=
  List.take_subset n s.data h

theorem isPrefixOf_self_append : ∀ l t : List Char, l.isPrefixOf (l ++ t) = true := by
  intro l t
  induction l with
  | nil => simp [List.isPrefixOf]
  | cons a as ih => simp [List.isPrefixOf, ih]

theorem dots_ends (x : String) : strEndsWith (x ++ "...") "..." = true := by
  show ("...".data.isSuffixOf (x.data ++ "...".data)) = true
  show ("...".data.reverse.isPrefixOf (x.data ++ "...".data).reverse) = true
  rw [List.reverse_append]
  exact isPrefixOf_self_append _ _

theorem strContainsChar_iff (s : String) (c : Char) :
    strContainsChar s c = true ↔ c ∈ s.data := by
  simp [strContainsChar, List.contains, List.elem_iff]

/-- A slash-join of at least two segments contains a slash. -/
theorem joinSlash_slash : ∀ l : List String, 2 ≤ l.length → '/' ∈ (joinSlash l).data := by
  intro l h
  match l with
  | a :: b :: rest =>
    show '/' ∈ (a ++ "/" ++ joinSlash (b :: rest)).data
    have hd : (a ++ "/" ++ joinSlash (b :: rest)).data
        = a.data ++ '/' :: (joinSlash (b :: rest)).data := by
      simp [List.append_assoc]
    rw [hd]
    exact List.mem_append.mpr (Or.inr (List.mem_cons_self _ _))

/-- The label loop either keeps its input or produces a multi-segment
join of bounded length containing a slash. -/
theorem growLabelAux_spec (segs : List String) : ∀ (k n : Nat) (label : String), 2 ≤ n →
    growLabelAux segs k n label = label ∨
      ('/' ∈ (growLabelAux segs k n label).data ∧
        (growLabelAux segs k n label).length ≤ maxLabelLenMulti) := by
  intro k
  induction k with
  | zero => intro n label _; exact Or.inl rfl
  | succ k ih =>
    intro n label hn
    simp only [growLabelAux]
    split
    · rename_i hle
      split
      · rename_i hcand
        rcases ih (n + 1) _ (by omega) with heq | hp
        · rw [heq]
          right
          refine ⟨?_, hcand⟩
          apply joinSlash_slash
          rw [List.length_drop]
          omega
        · exact Or.inr hp
      · exact Or.inl rfl
    · exact Or.inl rfl

/-- Members of labelSegs are nonempty segments. -/
theorem labelSegs_ne (p : String) : ∀ s ∈ labelSegs p, s ≠ "" := by
  intro s hs
  have := List.mem_filter.mp hs
  simpa using this.2

/-- C10: getShortLabel always yields a nonempty label of at most 50
characters; a path with no nonempty segments yields "unknown"; a label
containing a slash (multi-segment) is at most 35 characters; and when the
chosen raw label exceeds its limit the result is truncated to exactly the
limit with a trailing "...". -/
theorem claimC10 (p : String) :
    getShortLabel p ≠ "" ∧
    (getShortLabel p).length ≤ maxLabelLenSingle ∧
    ('/' ∈ (getShortLabel p).data → (getShortLabel p).length ≤ maxLabelLenMulti) ∧
    (labelSegs p = [] → getShortLabel p = "unknown") ∧
    ((shortLabelRaw p).length >
        (if strContainsChar (shortLabelRaw p) '/' then maxLabelLenMulti
         else maxLabelLenSingle) →
      strEndsWith (getShortLabel p) "..." = true ∧
      (getShortLabel p).length
        = (if strContainsChar (shortLabelRaw p) '/' then maxLabelLenMulti
           else maxLabelLenSingle)) := by
  cases hlast : (labelSegs p).getLast? with
  | none =>
    have h1 : getShortLabel p = "unknown" := by
      unfold getShortLabel
      rw [hlast]
    have h2 : shortLabelRaw p = "unknown" := by
      unfold shortLabelRaw
      rw [hlast]
    rw [h1, h2]
    refine ⟨by decide, by decide, by decide, fun _ => rfl, ?_⟩
    intro h
    exact absurd h (by decide)
  | some lastSeg =>
    have hne : lastSeg ≠ "" := by
      refine labelSegs_ne p lastSeg ?_
      obtain ⟨h9, h10⟩ := List.mem_getLast?_eq_getLast (Option.mem_def.mpr hlast)
      rw [h10]
      exact List.getLast_mem h9
    have hlab : getShortLabel p
        = (if (shortLabelRaw p).length >
              (if strContainsChar (shortLabelRaw p) '/' then maxLabelLenMulti
               else maxLabelLenSingle) then
            strTake (shortLabelRaw p)
              ((if strContainsChar (shortLabelRaw p) '/' then maxLabelLenMulti
                else maxLabelLenSingle) - 3) ++ "..."
          else shortLabelRaw p) := by
      unfold getShortLabel shortLabelRaw
      rw [hlast]
    have hcases : shortLabelRaw p = lastSeg ∨
        ('/' ∈ (shortLabelRaw p).data ∧ (shortLabelRaw p).length ≤ maxLabelLenMulti) := by
      have hg := growLabelAux_spec (labelSegs p) ((labelSegs p).length + 1 - 2) 2 lastSeg
        (le_refl 2)
      have hr : shortLabelRaw p = growLabelAux (labelSegs p)
          ((labelSegs p).length + 1 - 2) 2 lastSeg := by
        unfold shortLabelRaw
        rw [hlast]
        rfl
      rw [hr]
      exact hg
    have hM : (3 : Nat) ≤ (if strContainsChar (shortLabelRaw p) '/' then maxLabelLenMulti
        else maxLabelLenSingle) ∧
        (if strContainsChar (shortLabelRaw p) '/' then maxLabelLenMulti
         else maxLabelLenSingle) ≤ maxLabelLenSingle := by
      split <;> exact ⟨by decide, by decide⟩
    have hC35 : '/' ∈ (shortLabelRaw p).data →
        (if strContainsChar (shortLabelRaw p) '/' then maxLabelLenMulti
         else maxLabelLenSingle) = maxLabelLenMulti := by
      intro hin
      rw [if_pos ((strContainsChar_iff _ _).mpr hin)]
    by_cases hsl : (shortLabelRaw p).length >
        (if strContainsChar (shortLabelRaw p) '/' then maxLabelLenMulti
         else maxLabelLenSingle)
    · have hres : getShortLabel p = strTake (shortLabelRaw p)
          ((if strContainsChar (shortLabelRaw p) '/' then maxLabelLenMulti
            else maxLabelLenSingle) - 3) ++ "..." := by
        rw [hlab, if_pos hsl]
      have hlen : (getShortLabel p).length
          = (if strContainsChar (shortLabelRaw p) '/' then maxLabelLenMulti
             else maxLabelLenSingle) := by
        rw [hres, strLen_append_dots, strTake_length]
        omega
      refine ⟨?_, ?_, ?_, ?_, fun _ => ⟨by rw [hres]; exact dots_ends _, hlen⟩⟩
      · intro h0
        rw [h0] at hlen
        have : ("" : String).length = 0 := rfl
        omega
      · rw [hlen]
        exact hM.2
      · intro hin
        rw [hlen]
        rw [hres] at hin
        have hin2 : '/' ∈ (shortLabelRaw p).data := by
          have : (strTake (shortLabelRaw p)
              ((if strContainsChar (shortLabelRaw p) '/' then maxLabelLenMulti
                else maxLabelLenSingle) - 3) ++ "...").data
              = (strTake (shortLabelRaw p)
                  ((if strContainsChar (shortLabelRaw p) '/' then maxLabelLenMulti
                    else maxLabelLenSingle) - 3)).data ++ "...".data := rfl
          rw [this] at hin
          rcases List.mem_append.mp hin with h1 | h1
          · exact strTake_mem _ _ _ h1
          · exact absurd h1 (by decide)
        rw [hC35 hin2]
      · intro hnil
        rw [hnil] at hlast
        cases hlast
    · have hres : getShortLabel p = shortLabelRaw p := by
        rw [hlab, if_neg hsl]
      have hle : (getShortLabel p).length ≤
          (if strContainsChar (shortLabelRaw p) '/' then maxLabelLenMulti
           else maxLabelLenSingle) := by
        rw [hres]
        omega
      refine ⟨?_, ?_, ?_, ?_, fun hcon => absurd hcon hsl⟩
      · rw [hres]
        rcases hcases with hq | hq
        · rw [hq]
          exact hne
        · intro h0
          rw [h0] at hq
          exact absurd hq.1 (by decide)
      · exact le_trans hle hM.2
      · intro hin
        rw [hres] at hin ⊢
        rw [← hC35 hin]
        rw [hres] at hle
        exact hle
      · intro hnil
        rw [hnil] at hlast
        cases hlast

/-- The long single-segment filename used as the C10 witness input. -/
def c10Long : String := "this_is_a_very_long_filename_that_exceeds_multi_limit.yaml"

/-- Witness for C10 at a concrete over-long filename. -/
theorem claimC10_witness :
    getShortLabel c10Long ≠ "" ∧
    strEndsWith (getShortLabel c10Long) "..." = true ∧
    (getShortLabel c10Long).length
      = (if strContainsChar (shortLabelRaw c10Long) '/' then maxLabelLenMulti
         else maxLabelLenSingle) := by
  have h := claimC10 c10Long
  have h5 := h.2.2.2.2 (by decide)
  exact ⟨h.1, h5.1, h5.2⟩

end KV
